import Mathlib

set_option maxHeartbeats 1000000

set_option maxRecDepth 8192

/-!
Shallow embedding of the memory/process-creation core of a small 32-bit
x86 kernel: the Multiboot memory-map scan (`kernel.c`), and process
construction (`process.c`): kernel-stack allocation, ELF32 loading into a
fresh address space, the initial IRET frame on the kernel stack, and
process teardown.  Machine integers are modelled as `Nat` with an explicit
`% 2^32` (or `% 2^64`) wherever the C arithmetic can wrap.
-/

namespace OsCore

/-! ### Fixed constants (paging.h, process.c, kernel.c) -/

def PAGE_SIZE : Nat := 4096

def two32 : Nat := 4294967296

def two64 : Nat := 18446744073709551616

def UINTPTR_MAX : Nat := 4294967295

def KERNEL_VIRT_BASE : Nat := 0xC0000000

def KERNEL_STACK_VIRT_START : Nat := 0xE0000000

def KERNEL_STACK_VIRT_END : Nat := 0xF0000000

def USER_EFLAGS_DEFAULT : Nat := 0x202

def PAGE_PRESENT : Nat := 0x001

def PAGE_RW : Nat := 0x002

def PAGE_USER : Nat := 0x004

def PAGE_NX_BIT : Nat := 0x200

def PAGING_ADDR_MASK : Nat := 0xFFFFF000

def RECURSIVE_PDE_INDEX : Nat := 1023

def KERNEL_PDE_INDEX : Nat := 768

def PTE_KERNEL_DATA_FLAGS : Nat := PAGE_PRESENT ||| PAGE_RW ||| PAGE_NX_BIT

def PTE_USER_DATA_FLAGS : Nat := PAGE_PRESENT ||| PAGE_RW ||| PAGE_USER ||| PAGE_NX_BIT

/-- `PAGE_ALIGN_DOWN(addr)` = `addr & ~(PAGE_SIZE-1)` on a 32-bit `uintptr_t`. -/
def PAGE_ALIGN_DOWN (a : Nat) : Nat := a / PAGE_SIZE * PAGE_SIZE

/-- `PAGE_ALIGN_UP(addr)` = `ALIGN_UP(addr, PAGE_SIZE)` =
`((addr + PAGE_SIZE - 1) & ~(PAGE_SIZE-1))` on a 32-bit `uintptr_t`; the
addition wraps mod 2^32 (the caller at process.c:479-481 separately clamps
the wrapped case to `UINTPTR_MAX`). -/
def PAGE_ALIGN_UP (a : Nat) : Nat := (a + (PAGE_SIZE - 1)) % two32 / PAGE_SIZE * PAGE_SIZE

/-- Point update of a `Nat`-indexed store (memory word or PDE slot). -/
def writeWord (m : Nat → Nat) (a v : Nat) : Nat → Nat :=
  fun x => if x = a then v else m x

/-! ### Multiboot memory-map scan (kernel.c:59-119, `find_largest_memory_area`) -/

/-- One entry of the Multiboot2 memory map: `addr` and `len` are 64-bit. -/
structure MMapEntry where
  addr : Nat
  len : Nat
  typ : Nat
deriving DecidableEq

def MULTIBOOT_MEMORY_AVAILABLE : Nat := 1

/-- One iteration of the scan loop (kernel.c:67-107).  The accumulator is the
running `(best_base, best_size)`.  `kernel_end` is `kernel_image_end_phys`.
The C code casts the 64-bit `addr` to 32-bit `uintptr_t` (`% two32`) and adds
`entry_phys_start + entry_len` in 64-bit (`% two64`). -/
def mmapStep (kernel_end : Nat) (acc : Nat × Nat) (e : MMapEntry) : Nat × Nat :=
  if e.typ = MULTIBOOT_MEMORY_AVAILABLE ∧ 0x100000 ≤ e.addr then
    let entry_phys_start := e.addr % two32
    let trimmed : Nat × Nat :=
      if entry_phys_start < kernel_end then
        if kernel_end < (entry_phys_start + e.len) % two64 then
          (kernel_end, e.len - (kernel_end - entry_phys_start))
        else
          (entry_phys_start, 0)
      else (entry_phys_start, e.len)
    if acc.2 < trimmed.2 then trimmed else acc
  else acc

/-- `find_largest_memory_area` (kernel.c:59-119): scans the map, returns
`some (base, size)` when a region with positive remaining size was found,
`none` otherwise.  The returned size is truncated to `size_t`
(`*out_size = (size_t)best_size`). -/
def find_largest_memory_area (kernel_end : Nat) (entries : List MMapEntry) :
    Option (Nat × Nat) :=
  let best := entries.foldl (mmapStep kernel_end) (0, 0)
  if 0 < best.2 then some (best.1, best.2 % two32) else none

/-- The remaining region of an entry after removing the part overlapping
`[0, kernel_end)`, for AVAILABLE entries starting at or above 1 MiB.
Stated from the spec's words ("trims the portion overlapping
`[0, kernel_image_end)` and selects the largest remaining suffix"), for
comparison with `find_largest_memory_area`. -/
def specTrim (kernel_end : Nat) (e : MMapEntry) : Option (Nat × Nat) :=
  if e.typ = MULTIBOOT_MEMORY_AVAILABLE ∧ 0x100000 ≤ e.addr then
    let s := max e.addr kernel_end
    if s < e.addr + e.len then some (s, e.addr + e.len - s) else none
  else none

/-- Spec-side best-so-far step: keep the larger remaining region, first wins
ties. -/
def specBestStep (kernel_end : Nat) (acc : Nat × Nat) (e : MMapEntry) : Nat × Nat :=
  match specTrim kernel_end e with
  | some r => if acc.2 < r.2 then r else acc
  | none => acc

/-- Spec-side scan: base and size of the largest remaining region. -/
def find_largest_memory_area_spec (kernel_end : Nat) (entries : List MMapEntry) :
    Option (Nat × Nat) :=
  let best := entries.foldl (specBestStep kernel_end) (0, 0)
  if 0 < best.2 then some best else none

theorem mmapStep_eq_specBestStep (kernel_end : Nat) (acc : Nat × Nat) (e : MMapEntry)
    (hfit : e.addr + e.len < two32) :
    mmapStep kernel_end acc e = specBestStep kernel_end acc e := by
  unfold mmapStep specBestStep specTrim
  by_cases htyp : e.typ = MULTIBOOT_MEMORY_AVAILABLE ∧ 0x100000 ≤ e.addr
  · simp only [htyp, and_self, if_true]
    have haddr : e.addr < two32 := Nat.lt_of_le_of_lt (Nat.le_add_right _ _) hfit
    have hcast : e.addr % two32 = e.addr := Nat.mod_eq_of_lt haddr
    have hsum : (e.addr + e.len) % two64 = e.addr + e.len := by
      have : e.addr + e.len < two64 := by
        have h32 : two32 < two64 := by norm_num [two32, two64]
        omega
      exact Nat.mod_eq_of_lt this
    rw [hcast, hsum]
    by_cases hlow : e.addr < kernel_end
    · have hmax : max e.addr kernel_end = kernel_end := Nat.max_eq_right (Nat.le_of_lt hlow)
      rw [hmax]
      by_cases hcross : kernel_end < e.addr + e.len
      · simp only [hlow, if_true, hcross]
        have : e.len - (kernel_end - e.addr) = e.addr + e.len - kernel_end := by omega
        rw [this]
      · simp only [hlow, if_true, hcross, if_false]
        have hz : ¬ acc.2 < 0 := Nat.not_lt_zero _
        simp [hz]
    · have hmax : max e.addr kernel_end = e.addr := Nat.max_eq_left (Nat.le_of_not_lt hlow)
      rw [hmax]
      simp only [hlow, if_false]
      by_cases hpos : e.addr < e.addr + e.len
      · simp only [hpos, if_true]
        have : e.addr + e.len - e.addr = e.len := by omega
        rw [this]
      · have hlen : e.len = 0 := by omega
        simp [hpos, hlen]
  · simp [htyp]

theorem mmapFold_eq_spec (kernel_end : Nat) (entries : List MMapEntry)
    (hfit : ∀ e ∈ entries, e.addr + e.len < two32) (acc : Nat × Nat) :
    entries.foldl (mmapStep kernel_end) acc = entries.foldl (specBestStep kernel_end) acc := by
  induction entries generalizing acc with
  | nil => rfl
  | cons e t ih =>
    simp only [List.foldl_cons]
    rw [mmapStep_eq_specBestStep kernel_end acc e (hfit e (List.mem_cons_self e t))]
    exact ih (fun x hx => hfit x (List.mem_cons_of_mem e hx)) _

theorem specBestStep_size_lt (kernel_end : Nat) (acc : Nat × Nat) (e : MMapEntry)
    (hacc : acc.2 < two32) (hfit : e.addr + e.len < two32) :
    (specBestStep kernel_end acc e).2 < two32 := by
  unfold specBestStep specTrim
  by_cases htyp : e.typ = MULTIBOOT_MEMORY_AVAILABLE ∧ 0x100000 ≤ e.addr
  · simp only [htyp, and_self, if_true]
    by_cases hpos : max e.addr kernel_end < e.addr + e.len
    · simp only [hpos, if_true]
      by_cases hlt : acc.2 < e.addr + e.len - max e.addr kernel_end
      · simp only [hlt, if_true]
        omega
      · simp only [hlt, if_false]
        exact hacc
    · simp [hpos, hacc]
  · simp [htyp, hacc]

theorem specFold_size_lt (kernel_end : Nat) (entries : List MMapEntry)
    (hfit : ∀ e ∈ entries, e.addr + e.len < two32) (acc : Nat × Nat) (hacc : acc.2 < two32) :
    (entries.foldl (specBestStep kernel_end) acc).2 < two32 := by
  induction entries generalizing acc with
  | nil => exact hacc
  | cons e t ih =>
    simp only [List.foldl_cons]
    exact ih (fun x hx => hfit x (List.mem_cons_of_mem e hx)) _
      (specBestStep_size_lt kernel_end acc e hacc (hfit e (List.mem_cons_self e t)))

/-- Claim C3, counterexample.  The claim says the scan considers every
AVAILABLE entry with 64-bit start address ≥ 0x100000 and returns the largest
region remaining after trimming `[0, kernel_image_end)`.  The code casts the
64-bit address to 32-bit `uintptr_t` first, so the entry
`(0x100000000, 0x1000, AVAILABLE)` — which does not overlap the kernel image
at all — is treated as starting at physical 0 and discarded: the scan returns
`none` while the claimed behaviour yields `(0x100000000, 0x1000)`. -/
theorem C3_counterexample :
    find_largest_memory_area 0x200000 [⟨0x100000000, 0x1000, 1⟩] = none ∧
    find_largest_memory_area_spec 0x200000 [⟨0x100000000, 0x1000, 1⟩] =
      some (0x100000000, 0x1000) := by
  refine ⟨?_, ?_⟩ <;> rfl

/-- Claim C3 (amended): for every Multiboot memory map all of whose entries lie
below 4 GiB (`addr + len < 2^32`), `find_largest_memory_area` considers exactly
the AVAILABLE (type 1) entries whose start address is ≥ 0x100000, trims from
each the portion overlapping `[0, kernel_image_end)`, and returns the base and
size of the largest remaining region (first entry wins ties). -/
theorem C3_trims_and_selects_largest (kernel_end : Nat) (entries : List MMapEntry)
    (hfit : ∀ e ∈ entries, e.addr + e.len < two32) :
    find_largest_memory_area kernel_end entries =
      find_largest_memory_area_spec kernel_end entries := by
  have h := specFold_size_lt kernel_end entries hfit (0, 0) (by norm_num [two32])
  simp only [find_largest_memory_area, find_largest_memory_area_spec]
  rw [mmapFold_eq_spec kernel_end entries hfit]
  split_ifs with hpos
  · rw [Nat.mod_eq_of_lt h]
  · rfl

/-- Claim C3, witness: on the map with AVAILABLE entries `(0x100000, 0x10000)`
and `(0x400000, 0x800000)` and kernel end `0x200000`, the scan picks base
`0x400000`, size `0x800000`. -/
theorem C3_witness :
    find_largest_memory_area 0x200000
      [⟨0x100000, 0x10000, 1⟩, ⟨0x400000, 0x800000, 1⟩] = some (0x400000, 0x800000) := by
  have h := C3_trims_and_selects_largest 0x200000
    [⟨0x100000, 0x10000, 1⟩, ⟨0x400000, 0x800000, 1⟩] (by decide)
  rw [h]
  rfl

/-! ### Process control block (process.h fields consumed by process.c) -/

/-- The GDT user selectors consumed by `prepare_initial_kernel_stack`
(`gdt.h`, external collaborator): their numeric values are irrelevant to the
frame layout, so they are parameters of the model. -/
structure GdtSel where
  user_code : Nat
  user_data : Nat
deriving DecidableEq

structure PCB where
  pid : Nat
  page_directory_phys : Nat
  mm_present : Bool
  kernel_stack_vaddr_top : Nat
  kernel_stack_phys_base : Nat
  entry_point : Nat
  user_stack_top : Nat
  kernel_esp_for_switch : Nat
deriving DecidableEq

/-- `memset(proc, 0, sizeof(pcb_t))` followed by `proc->pid = next_pid++`
(process.c:618-620). -/
def PCB.zeroed (pid : Nat) : PCB := ⟨pid, 0, false, 0, 0, 0, 0, 0⟩

/-- `prepare_initial_kernel_stack` (process.c:515-582): starting from
`kernel_stack_vaddr_top`, push user SS, user ESP, EFLAGS, user CS, user EIP
(each push decrements the `uint32_t*` stack pointer by 4), and record the
final stack pointer in `kernel_esp_for_switch`.  `m` maps a byte address to
the 32-bit word stored there. -/
def prepare_initial_kernel_stack (g : GdtSel) (proc : PCB) (m : Nat → Nat) :
    PCB × (Nat → Nat) :=
  ({ proc with kernel_esp_for_switch := proc.kernel_stack_vaddr_top - 20 },
    writeWord (writeWord (writeWord (writeWord (writeWord m
      (proc.kernel_stack_vaddr_top - 4) (g.user_data ||| 3))
      (proc.kernel_stack_vaddr_top - 8) proc.user_stack_top)
      (proc.kernel_stack_vaddr_top - 12) USER_EFLAGS_DEFAULT)
      (proc.kernel_stack_vaddr_top - 16) (g.user_code ||| 3))
      (proc.kernel_stack_vaddr_top - 20) proc.entry_point)

/-- Modelled from the spec: `copy_kernel_pde_entries` (paging.c, not under
src/) copies the kernel-space PDEs — indices from `KERNEL_PDE_INDEX` up — of
the kernel page directory verbatim into the new directory. -/
def copy_kernel_pde_entries (kernel_pde : Nat → Nat) (pd : Nat → Nat) : Nat → Nat :=
  fun i => if KERNEL_PDE_INDEX ≤ i ∧ i < 1024 then kernel_pde i else pd i

/-- Page-directory set-up in `create_user_process` (process.c:636-658): zero
the fresh frame, copy the kernel PDEs, then write
`(pd_phys & PAGING_ADDR_MASK) | PAGE_PRESENT | PAGE_RW | PAGE_NX_BIT` into
the last slot (`RECURSIVE_PDE_INDEX`, process.c:653). -/
def initProcessPD (kernel_pde : Nat → Nat) (pd_phys : Nat) : Nat → Nat :=
  writeWord (copy_kernel_pde_entries kernel_pde (fun _ => 0)) RECURSIVE_PDE_INDEX
    ((pd_phys &&& PAGING_ADDR_MASK) ||| PAGE_PRESENT ||| PAGE_RW ||| PAGE_NX_BIT)

/-! ### Kernel-stack allocation (process.c:94-205, `allocate_kernel_stack`) -/

/-- Outcomes of the external calls `allocate_kernel_stack` makes: the kmalloc
of the temporary frame array, each `frame_alloc` (by call index, `0` =
exhaustion), and each `paging_map_single_4k` (by target virtual address). -/
structure KStackEnv where
  kmalloc_ok : Bool
  frame : Nat → Nat
  map_ok : Nat → Bool

/-- Result and side effects of one `allocate_kernel_stack` call. -/
structure KStackRes where
  ok : Bool
  vaddr_top : Nat
  phys_base : Nat
  frames_alloced : List Nat
  frames_put : List Nat
  mapped_pages : List Nat
  unmap_calls : List (Nat × Nat)
  next_base : Nat
deriving DecidableEq

/-- Frame-allocation loop (process.c:122-136): allocate frames for calls
`i, i+1, ...`; stop at the first failure.  Returns the frames obtained and
whether all succeeded. -/
def allocFramesGo (f : Nat → Nat) : Nat → Nat → List Nat × Bool
  | _, 0 => ([], true)
  | i, n + 1 =>
    if f i = 0 then ([], false)
    else
      let r := allocFramesGo f (i + 1) n
      (f i :: r.1, r.2)

/-- Mapping loop (process.c:162-192): map pages `i, i+1, ...` at
`base + i * PAGE_SIZE`; stop at the first failure.  Returns the number of
pages mapped and whether all succeeded. -/
def mapLoopGo (okf : Nat → Bool) (base : Nat) : Nat → Nat → Nat × Bool
  | _, 0 => (0, true)
  | i, n + 1 =>
    if okf (base + i * PAGE_SIZE) then
      let r := mapLoopGo okf base (i + 1) n
      (r.1 + 1, r.2)
    else (0, false)

/-- The page-sized virtual addresses `base, base + PAGE_SIZE, ...` (`n` of
them). -/
def pageList (base n : Nat) : List Nat :=
  (List.range n).map (fun i => base + i * PAGE_SIZE)

/-- `allocate_kernel_stack` (process.c:94-205).  `stack_alloc_size` is
`PROCESS_KSTACK_SIZE` (process.h, external constant), `g_next` the value of
the bump pointer `g_next_kernel_stack_virt_base` on entry. -/
def allocate_kernel_stack (env : KStackEnv) (stack_alloc_size g_next : Nat) : KStackRes :=
  if stack_alloc_size = 0 ∨ stack_alloc_size % PAGE_SIZE ≠ 0 then
    ⟨false, 0, 0, [], [], [], [], g_next⟩
  else if env.kmalloc_ok = false then
    ⟨false, 0, 0, [], [], [], [], g_next⟩
  else if (allocFramesGo env.frame 0 (stack_alloc_size / PAGE_SIZE)).2 = false then
    ⟨false, 0, 0, (allocFramesGo env.frame 0 (stack_alloc_size / PAGE_SIZE)).1,
      (allocFramesGo env.frame 0 (stack_alloc_size / PAGE_SIZE)).1, [], [], g_next⟩
  else if g_next < KERNEL_STACK_VIRT_START ∨
      KERNEL_STACK_VIRT_END < (g_next + stack_alloc_size) % two32 ∨
      (g_next + stack_alloc_size) % two32 ≤ g_next then
    ⟨false, 0, (allocFramesGo env.frame 0 (stack_alloc_size / PAGE_SIZE)).1.headD 0,
      (allocFramesGo env.frame 0 (stack_alloc_size / PAGE_SIZE)).1,
      (allocFramesGo env.frame 0 (stack_alloc_size / PAGE_SIZE)).1, [], [], g_next⟩
  else if (mapLoopGo env.map_ok g_next 0 (stack_alloc_size / PAGE_SIZE)).2 = false then
    ⟨false, 0, (allocFramesGo env.frame 0 (stack_alloc_size / PAGE_SIZE)).1.headD 0,
      (allocFramesGo env.frame 0 (stack_alloc_size / PAGE_SIZE)).1,
      (allocFramesGo env.frame 0 (stack_alloc_size / PAGE_SIZE)).1,
      pageList g_next (mapLoopGo env.map_ok g_next 0 (stack_alloc_size / PAGE_SIZE)).1,
      if 0 < (mapLoopGo env.map_ok g_next 0 (stack_alloc_size / PAGE_SIZE)).1 then
        [(g_next, (mapLoopGo env.map_ok g_next 0 (stack_alloc_size / PAGE_SIZE)).1 * PAGE_SIZE)]
      else [], g_next⟩
  else
    ⟨true, (g_next + stack_alloc_size) % two32,
      (allocFramesGo env.frame 0 (stack_alloc_size / PAGE_SIZE)).1.headD 0,
      (allocFramesGo env.frame 0 (stack_alloc_size / PAGE_SIZE)).1, [],
      pageList g_next (stack_alloc_size / PAGE_SIZE), [],
      (g_next + stack_alloc_size) % two32⟩

/-- Claim C6: whenever `allocate_kernel_stack` fails — frame exhaustion,
virtual-range exhaustion, or a mapping failure — it returns having released
(`put_frame`) every frame it allocated in that call, unmapped every page it
mapped in that call, and left `g_next_kernel_stack_virt_base` at its entry
value. -/
theorem C6_allocate_kernel_stack_cleanup (env : KStackEnv) (size g_next : Nat)
    (h : (allocate_kernel_stack env size g_next).ok = false) :
    (allocate_kernel_stack env size g_next).frames_put =
        (allocate_kernel_stack env size g_next).frames_alloced ∧
      (allocate_kernel_stack env size g_next).next_base = g_next ∧
      ∀ v ∈ (allocate_kernel_stack env size g_next).mapped_pages,
        ∃ c ∈ (allocate_kernel_stack env size g_next).unmap_calls,
          c.1 ≤ v ∧ v < c.1 + c.2 := by
  revert h
  unfold allocate_kernel_stack
  split_ifs with h1 h2 h3 h4 h5 h6
  · exact fun _ => ⟨rfl, rfl, fun v hv => absurd hv (List.not_mem_nil v)⟩
  · exact fun _ => ⟨rfl, rfl, fun v hv => absurd hv (List.not_mem_nil v)⟩
  · exact fun _ => ⟨rfl, rfl, fun v hv => absurd hv (List.not_mem_nil v)⟩
  · exact fun _ => ⟨rfl, rfl, fun v hv => absurd hv (List.not_mem_nil v)⟩
  · intro _
    refine ⟨rfl, rfl, ?_⟩
    intro v hv
    replace hv : v ∈ pageList g_next (mapLoopGo env.map_ok g_next 0 (size / PAGE_SIZE)).1 := hv
    simp only [pageList, List.mem_map, List.mem_range] at hv
    obtain ⟨i, hi, rfl⟩ := hv
    refine ⟨(g_next, (mapLoopGo env.map_ok g_next 0 (size / PAGE_SIZE)).1 * PAGE_SIZE),
      List.mem_singleton_self _, Nat.le_add_right _ _, ?_⟩
    have hstep : i * PAGE_SIZE + PAGE_SIZE ≤
        (mapLoopGo env.map_ok g_next 0 (size / PAGE_SIZE)).1 * PAGE_SIZE := by
      have h1i := Nat.succ_le_of_lt hi
      calc i * PAGE_SIZE + PAGE_SIZE = (i + 1) * PAGE_SIZE := by ring
        _ ≤ _ := Nat.mul_le_mul_right _ h1i
    have hp : PAGE_SIZE = 4096 := rfl
    simp only []
    omega
  · intro _
    refine ⟨rfl, rfl, ?_⟩
    intro v hv
    replace hv : v ∈ pageList g_next (mapLoopGo env.map_ok g_next 0 (size / PAGE_SIZE)).1 := hv
    simp only [pageList, List.mem_map, List.mem_range] at hv
    obtain ⟨i, hi, rfl⟩ := hv
    omega
  · intro hok
    exact absurd hok (by simp)

/-! ### Process teardown (process.c:834-903, `destroy_process`) -/

/-- The externally visible operations `destroy_process` performs, in order. -/
inductive DOp where
  | destroyMM : DOp
  | lookupKStackPage : Nat → DOp
  | putFrame : Nat → DOp
  | unmapRange : Nat → Nat → DOp
  | freePCB : DOp
deriving DecidableEq

/-- `destroy_process` (process.c:834-903) as the ordered trace of resource
operations it performs.  `lookup` is `paging_get_physical_address` on the
kernel page directory (`none` = lookup error); `kstack_size` is
`PROCESS_KSTACK_SIZE`. -/
def destroy_process (lookup : Nat → Option Nat) (kstack_size : Nat) (pcb : PCB) :
    List DOp :=
  let mmOps := if pcb.mm_present then [DOp.destroyMM] else []
  let ksOps :=
    if pcb.kernel_stack_vaddr_top ≠ 0 then
      let top := pcb.kernel_stack_vaddr_top
      let base := top - kstack_size
      let pages := pageList base ((top - base + (PAGE_SIZE - 1)) / PAGE_SIZE)
      (pages.flatMap fun v =>
        DOp.lookupKStackPage v ::
          match lookup v with
          | some p => if p ≠ 0 then [DOp.putFrame p] else []
          | none => []) ++ [DOp.unmapRange base kstack_size]
    else []
  let pdOps :=
    if pcb.page_directory_phys ≠ 0 then [DOp.putFrame pcb.page_directory_phys] else []
  mmOps ++ ksOps ++ pdOps ++ [DOp.freePCB]

theorem flatMapCongr {α β : Type} {l : List α} {f g : α → List β}
    (h : ∀ a ∈ l, f a = g a) : l.flatMap f = l.flatMap g := by
  induction l with
  | nil => rfl
  | cons a t ih =>
    simp only [List.flatMap_cons]
    rw [h a (List.mem_cons_self a t), ih (fun x hx => h x (List.mem_cons_of_mem a hx))]

/-- Claim C7: `destroy_process` releases resources in exactly this order —
`destroy_mm` on the process's mm (when present), then for each kernel-stack
page a physical-address lookup followed by `put_frame`, then `unmap_range` of
the kernel-stack range in the kernel page directory, then `put_frame` on the
page-directory frame, and finally the release of the PCB itself.  Stated for
the normal case: kernel stack present and no larger than its top address, and
every kernel-stack page lookup yields a nonzero frame `pv v`. -/
theorem C7_destroy_process_order (lookup : Nat → Option Nat) (kstack_size : Nat)
    (pcb : PCB) (pv : Nat → Nat)
    (hmm : pcb.mm_present = true)
    (htop : pcb.kernel_stack_vaddr_top ≠ 0)
    (hsz : kstack_size % PAGE_SIZE = 0)
    (hle : kstack_size ≤ pcb.kernel_stack_vaddr_top)
    (hpd : pcb.page_directory_phys ≠ 0)
    (hlookup : ∀ v ∈ pageList (pcb.kernel_stack_vaddr_top - kstack_size)
        (kstack_size / PAGE_SIZE), lookup v = some (pv v) ∧ pv v ≠ 0) :
    destroy_process lookup kstack_size pcb =
      [DOp.destroyMM] ++
      ((pageList (pcb.kernel_stack_vaddr_top - kstack_size) (kstack_size / PAGE_SIZE)).flatMap
        fun v => [DOp.lookupKStackPage v, DOp.putFrame (pv v)]) ++
      [DOp.unmapRange (pcb.kernel_stack_vaddr_top - kstack_size) kstack_size] ++
      [DOp.putFrame pcb.page_directory_phys] ++
      [DOp.freePCB] := by
  unfold destroy_process
  have hcount : (pcb.kernel_stack_vaddr_top - (pcb.kernel_stack_vaddr_top - kstack_size) +
      (PAGE_SIZE - 1)) / PAGE_SIZE = kstack_size / PAGE_SIZE := by
    have h1 : pcb.kernel_stack_vaddr_top - (pcb.kernel_stack_vaddr_top - kstack_size) =
        kstack_size := by omega
    rw [h1]
    have := Nat.div_add_mod kstack_size PAGE_SIZE
    simp only [PAGE_SIZE] at *
    omega
  simp only [hmm, if_true, htop, ne_eq, not_false_eq_true, if_true, hpd, hcount]
  rw [flatMapCongr (g := fun v => [DOp.lookupKStackPage v, DOp.putFrame (pv v)])
    (fun v hv => by
      obtain ⟨h1, h2⟩ := hlookup v hv
      simp [h1, h2])]
  simp [List.append_assoc]

/-- Claim C7, witness: a concrete process with one mm, a one-page kernel stack
at `[0xE0000000, 0xE0001000)` backed by frame `0x300000`, and page directory
frame `0x200000`. -/
theorem C7_witness :
    destroy_process (fun _ => some 0x300000) 4096
        ⟨1, 0x200000, true, 0xE0001000, 0x300000, 0x8048000, 0xBFC00000, 0⟩ =
      [DOp.destroyMM, DOp.lookupKStackPage 0xE0000000, DOp.putFrame 0x300000,
        DOp.unmapRange 0xE0000000 4096, DOp.putFrame 0x200000, DOp.freePCB] := by
  have h := C7_destroy_process_order (fun _ => some 0x300000) 4096
    ⟨1, 0x200000, true, 0xE0001000, 0x300000, 0x8048000, 0xBFC00000, 0⟩
    (fun _ => 0x300000) rfl (by decide) (by decide) (by decide) (by decide)
    (by intro v hv; exact ⟨rfl, by simp⟩)
  rw [h]
  rfl

/-! ### Process creation (process.c:596-821, `create_user_process`) -/

/-- Outcomes of the external calls `create_user_process` makes, together with
the external constants it consumes.  `kstack_size` is `PROCESS_KSTACK_SIZE`
and `user_stack_top` is `USER_STACK_TOP_VIRT_ADDR` (process.h, external
constants).  `heap_vma_ok` is the zero-size heap-VMA insert whose failure the
code treats as a non-fatal warning (process.c:708-711); it affects none of the
state tracked here.  `kernel_pde` gives the kernel page directory's PDEs
consumed by `copy_kernel_pde_entries`. -/
structure CreateEnv where
  gdt : GdtSel
  kstack_size : Nat
  user_stack_top : Nat
  kmalloc_pcb_ok : Bool
  pd_frame : Nat
  pd_temp_map_ok : Bool
  ks : KStackEnv
  create_mm_ok : Bool
  elf_result : Option (Nat × Nat)
  heap_vma_ok : Bool
  stack_vma_ok : Bool
  user_stack_frame : Nat
  user_stack_map_ok : Bool
  kernel_pde : Nat → Nat

/-- Kernel state threaded through `create_user_process`: the kernel-stack bump
pointer, the TSS `esp0` field, and kernel memory (stack words). -/
structure Sys where
  g_next : Nat
  tss_esp0 : Option Nat
  mem : Nat → Nat

/-- Result of `create_user_process`: the returned PCB (`none` = failure), the
final kernel state, the new page directory's entries (all zero when directory
set-up never ran), and the PCB state passed to `destroy_process` on the
failure path (`none` when no destroy happened). -/
structure CreateRes where
  result : Option PCB
  sys : Sys
  pd : Nat → Nat
  destroyed : Option PCB

/-- The `allocate_kernel_stack` call made by `create_user_process` step 4. -/
def ksRes (env : CreateEnv) (s : Sys) : KStackRes :=
  allocate_kernel_stack env.ks env.kstack_size s.g_next

/-- `create_user_process` (process.c:596-821).  Step order as in the source:
PCB kmalloc, PD `frame_alloc`, PD temp-map + set-up, `allocate_kernel_stack`,
`tss_set_kernel_stack` (modelled from the spec: sets the TSS `esp0` field to
its argument; `tss.c` is not under src/), `create_mm`, ELF load, heap VMA
(non-fatal), user-stack VMA, user-stack frame + map, and
`prepare_initial_kernel_stack`.  Each failure path calls `destroy_process`
on the partially built PCB (recorded in `destroyed`) and returns `none`;
nothing on the failure path touches the TSS. -/
def create_user_process (env : CreateEnv) (s : Sys) (pid : Nat) : CreateRes :=
  if env.kmalloc_pcb_ok = false then
    ⟨none, s, fun _ => 0, none⟩
  else if env.pd_frame = 0 then
    ⟨none, s, fun _ => 0, some ⟨pid, 0, false, 0, 0, 0, 0, 0⟩⟩
  else if env.pd_temp_map_ok = false then
    ⟨none, s, fun _ => 0, some ⟨pid, env.pd_frame, false, 0, 0, 0, 0, 0⟩⟩
  else if (ksRes env s).ok = false then
    ⟨none, ⟨(ksRes env s).next_base, s.tss_esp0, s.mem⟩,
      initProcessPD env.kernel_pde env.pd_frame,
      some ⟨pid, env.pd_frame, false, 0, 0, 0, 0, 0⟩⟩
  else if env.create_mm_ok = false then
    ⟨none, ⟨(ksRes env s).next_base, some (ksRes env s).vaddr_top, s.mem⟩,
      initProcessPD env.kernel_pde env.pd_frame,
      some ⟨pid, env.pd_frame, false, (ksRes env s).vaddr_top, (ksRes env s).phys_base, 0, 0, 0⟩⟩
  else
    match env.elf_result with
    | none =>
      ⟨none, ⟨(ksRes env s).next_base, some (ksRes env s).vaddr_top, s.mem⟩,
        initProcessPD env.kernel_pde env.pd_frame,
        some ⟨pid, env.pd_frame, true, (ksRes env s).vaddr_top, (ksRes env s).phys_base, 0, 0, 0⟩⟩
    | some eb =>
      if env.stack_vma_ok = false then
        ⟨none, ⟨(ksRes env s).next_base, some (ksRes env s).vaddr_top, s.mem⟩,
          initProcessPD env.kernel_pde env.pd_frame,
          some ⟨pid, env.pd_frame, true, (ksRes env s).vaddr_top, (ksRes env s).phys_base,
            eb.1, 0, 0⟩⟩
      else if env.user_stack_frame = 0 then
        ⟨none, ⟨(ksRes env s).next_base, some (ksRes env s).vaddr_top, s.mem⟩,
          initProcessPD env.kernel_pde env.pd_frame,
          some ⟨pid, env.pd_frame, true, (ksRes env s).vaddr_top, (ksRes env s).phys_base,
            eb.1, env.user_stack_top, 0⟩⟩
      else if env.user_stack_map_ok = false then
        ⟨none, ⟨(ksRes env s).next_base, some (ksRes env s).vaddr_top, s.mem⟩,
          initProcessPD env.kernel_pde env.pd_frame,
          some ⟨pid, env.pd_frame, true, (ksRes env s).vaddr_top, (ksRes env s).phys_base,
            eb.1, env.user_stack_top, 0⟩⟩
      else
        ⟨some (prepare_initial_kernel_stack env.gdt
            ⟨pid, env.pd_frame, true, (ksRes env s).vaddr_top, (ksRes env s).phys_base,
              eb.1, env.user_stack_top, 0⟩ s.mem).1,
          ⟨(ksRes env s).next_base, some (ksRes env s).vaddr_top,
            (prepare_initial_kernel_stack env.gdt
              ⟨pid, env.pd_frame, true, (ksRes env s).vaddr_top, (ksRes env s).phys_base,
                eb.1, env.user_stack_top, 0⟩ s.mem).2⟩,
          initProcessPD env.kernel_pde env.pd_frame, none⟩

/-- On success, `allocate_kernel_stack` hands out a stack top strictly above
`KERNEL_STACK_VIRT_START` (the virtual range passed the bounds check at
process.c:148). -/
theorem allocate_ok_top (env : KStackEnv) (size g_next : Nat)
    (h : (allocate_kernel_stack env size g_next).ok = true) :
    KERNEL_STACK_VIRT_START < (allocate_kernel_stack env size g_next).vaddr_top := by
  revert h
  unfold allocate_kernel_stack
  split_ifs with h1 h2 h3 h4 h5 h6 <;> intro h
  · exact absurd h (by simp)
  · exact absurd h (by simp)
  · exact absurd h (by simp)
  · exact absurd h (by simp)
  · exact absurd h (by simp)
  · exact absurd h (by simp)
  · push_neg at h4
    exact lt_of_le_of_lt h4.1 h4.2.2

/-- Layout of the five words `prepare_initial_kernel_stack` pushes, read back
from the resulting memory, together with the recorded stack pointer. -/
theorem prepare_frame_layout (g : GdtSel) (proc : PCB) (m : Nat → Nat)
    (h20 : 20 ≤ proc.kernel_stack_vaddr_top) :
    (prepare_initial_kernel_stack g proc m).1.kernel_esp_for_switch =
        proc.kernel_stack_vaddr_top - 20 ∧
      (prepare_initial_kernel_stack g proc m).2 (proc.kernel_stack_vaddr_top - 20) =
        proc.entry_point ∧
      (prepare_initial_kernel_stack g proc m).2 (proc.kernel_stack_vaddr_top - 16) =
        (g.user_code ||| 3) ∧
      (prepare_initial_kernel_stack g proc m).2 (proc.kernel_stack_vaddr_top - 12) =
        USER_EFLAGS_DEFAULT ∧
      (prepare_initial_kernel_stack g proc m).2 (proc.kernel_stack_vaddr_top - 8) =
        proc.user_stack_top ∧
      (prepare_initial_kernel_stack g proc m).2 (proc.kernel_stack_vaddr_top - 4) =
        (g.user_data ||| 3) := by
  unfold prepare_initial_kernel_stack writeWord
  refine ⟨rfl, ?_, ?_, ?_, ?_, ?_⟩
  · simp
  · simp only []
    rw [if_neg (by omega)]
    simp
  · simp only []
    rw [if_neg (by omega), if_neg (by omega)]
    simp
  · simp only []
    rw [if_neg (by omega), if_neg (by omega), if_neg (by omega)]
    simp
  · simp only []
    rw [if_neg (by omega), if_neg (by omega), if_neg (by omega), if_neg (by omega)]
    simp

/-- A page-aligned 32-bit address is unchanged by `& PAGING_ADDR_MASK`. -/
theorem land_addr_mask (pd : Nat) (halign : pd % PAGE_SIZE = 0) (hlt : pd < two32) :
    pd &&& PAGING_ADDR_MASK = pd := by
  obtain ⟨q, rfl⟩ : ∃ q, pd = 2 ^ 12 * q := by
    refine ⟨pd / 4096, ?_⟩
    have h4096 : PAGE_SIZE = 4096 := rfl
    rw [h4096] at halign
    omega
  have hq : q < 2 ^ 20 := by
    by_contra hq
    push_neg at hq
    have hge : (2 : Nat) ^ 32 ≤ 2 ^ 12 * q := by
      calc (2 : Nat) ^ 32 = 2 ^ 12 * 2 ^ 20 := by norm_num
        _ ≤ 2 ^ 12 * q := Nat.mul_le_mul_left _ hq
    have h2 : two32 = 2 ^ 32 := by norm_num [two32]
    omega
  apply Nat.eq_of_testBit_eq
  intro j
  have hmask : PAGING_ADDR_MASK = 2 ^ 12 * (2 ^ 20 - 1) := by norm_num [PAGING_ADDR_MASK]
  rw [Nat.testBit_and, hmask, Nat.testBit_mul_pow_two, Nat.testBit_mul_pow_two,
    Nat.testBit_two_pow_sub_one]
  by_cases h12 : 12 ≤ j
  · by_cases h20 : j - 12 < 20
    · simp [h12, h20]
    · have hfalse : q.testBit (j - 12) = false := by
        apply Nat.testBit_lt_two_pow
        calc q < 2 ^ 20 := hq
          _ ≤ 2 ^ (j - 12) := Nat.pow_le_pow_right (by norm_num) (by omega)
      simp [h12, h20, hfalse]
  · simp [h12]

/-- For a page-aligned address, OR-ing in the in-page flag bits is addition. -/
theorem or_flags_eq_add (pd : Nat) (halign : pd % PAGE_SIZE = 0) :
    pd ||| PAGE_PRESENT ||| PAGE_RW ||| PAGE_NX_BIT = pd + 0x203 := by
  obtain ⟨q, rfl⟩ : ∃ q, pd = 2 ^ 12 * q := by
    refine ⟨pd / 4096, ?_⟩
    have h4096 : PAGE_SIZE = 4096 := rfl
    rw [h4096] at halign
    omega
  have h1 : 2 ^ 12 * q ||| PAGE_PRESENT ||| PAGE_RW ||| PAGE_NX_BIT =
      2 ^ 12 * q ||| 0x203 := by
    rw [Nat.or_assoc, Nat.or_assoc]
    congr 1
  rw [h1, ← Nat.mul_add_lt_is_or (by norm_num) q]

/-- The recursive self-map entry written at process.c:653, for a page-aligned
directory frame: its exact value is the frame address plus PRESENT, RW and the
software NX bit. -/
theorem initProcessPD_recursive (kpde : Nat → Nat) (pd_phys : Nat)
    (halign : pd_phys % PAGE_SIZE = 0) (hlt : pd_phys < two32) :
    initProcessPD kpde pd_phys RECURSIVE_PDE_INDEX =
      pd_phys + (PAGE_PRESENT + PAGE_RW + PAGE_NX_BIT) := by
  have hval : initProcessPD kpde pd_phys RECURSIVE_PDE_INDEX =
      ((pd_phys &&& PAGING_ADDR_MASK) ||| PAGE_PRESENT ||| PAGE_RW ||| PAGE_NX_BIT) := by
    unfold initProcessPD writeWord
    rw [if_pos rfl]
  rw [hval, land_addr_mask pd_phys halign hlt, or_flags_eq_add pd_phys halign]
  norm_num [PAGE_PRESENT, PAGE_RW, PAGE_NX_BIT]

/-- `destroy_process` on a PCB with a live kernel stack always issues the
`unmap_range` of that stack's virtual range. -/
theorem unmapRange_mem_destroy (lookup : Nat → Option Nat) (size : Nat) (p : PCB)
    (h : p.kernel_stack_vaddr_top ≠ 0) :
    DOp.unmapRange (p.kernel_stack_vaddr_top - size) size ∈
      destroy_process lookup size p := by
  unfold destroy_process
  simp [h, List.mem_append]

/-- Claim C1: after `create_user_process(path)` succeeds, the five 32-bit
words on the kernel stack starting at `pcb.kernel_esp_for_switch`, read in
ascending address order, are exactly (ELF entry point,
`GDT_USER_CODE_SELECTOR | 3`, `0x202`, user stack top,
`GDT_USER_DATA_SELECTOR | 3`), and `kernel_esp_for_switch` is the kernel
stack top minus 20. -/
theorem C1_iret_frame_layout (env : CreateEnv) (s : Sys) (pid : Nat) (pcb : PCB)
    (eb : Nat × Nat) (helf : env.elf_result = some eb)
    (h : (create_user_process env s pid).result = some pcb) :
    pcb.kernel_esp_for_switch = pcb.kernel_stack_vaddr_top - 20 ∧
      (create_user_process env s pid).sys.mem pcb.kernel_esp_for_switch = eb.1 ∧
      (create_user_process env s pid).sys.mem (pcb.kernel_esp_for_switch + 4) =
        (env.gdt.user_code ||| 3) ∧
      (create_user_process env s pid).sys.mem (pcb.kernel_esp_for_switch + 8) = 0x202 ∧
      (create_user_process env s pid).sys.mem (pcb.kernel_esp_for_switch + 12) =
        pcb.user_stack_top ∧
      (create_user_process env s pid).sys.mem (pcb.kernel_esp_for_switch + 16) =
        (env.gdt.user_data ||| 3) := by
  by_cases hks : (ksRes env s).ok = false
  · simp only [create_user_process, helf] at h
    split_ifs at h <;>
      first
        | exact Option.noConfusion h
        | exact absurd hks (by assumption)
  · have hok : (ksRes env s).ok = true := by
      revert hks
      cases (ksRes env s).ok <;> simp
    have htop : KERNEL_STACK_VIRT_START < (ksRes env s).vaddr_top :=
      allocate_ok_top env.ks env.kstack_size s.g_next hok
    have h20 : 20 ≤ (ksRes env s).vaddr_top := by
      have hs : KERNEL_STACK_VIRT_START = 0xE0000000 := rfl
      omega
    obtain ⟨hesp, hm20, hm16, hm12, hm8, hm4⟩ := prepare_frame_layout env.gdt
      ⟨pid, env.pd_frame, true, (ksRes env s).vaddr_top, (ksRes env s).phys_base,
        eb.1, env.user_stack_top, 0⟩ s.mem h20
    simp only [create_user_process, helf] at h ⊢
    split_ifs at h ⊢
    all_goals try (exact Option.noConfusion h)
    replace h := Option.some.inj h
    subst h
    refine ⟨hesp, ?_, ?_, ?_, ?_, ?_⟩
    · rw [hesp]
      exact hm20
    · rw [hesp, show (ksRes env s).vaddr_top - 20 + 4 = (ksRes env s).vaddr_top - 16 by omega]
      exact hm16
    · rw [hesp, show (ksRes env s).vaddr_top - 20 + 8 = (ksRes env s).vaddr_top - 12 by omega]
      exact hm12
    · rw [hesp, show (ksRes env s).vaddr_top - 20 + 12 = (ksRes env s).vaddr_top - 8 by omega]
      exact hm8
    · rw [hesp, show (ksRes env s).vaddr_top - 20 + 16 = (ksRes env s).vaddr_top - 4 by omega]
      exact hm4

/-- A concrete environment in which every step of `create_user_process`
succeeds: user selectors `0x18`/`0x20`, a one-page kernel stack from
`0xE0000000`, PD frame `0x1000`, ELF entry `0x8048000`, user stack top
`0xBFC00000`. -/
def envOk : CreateEnv :=
  ⟨⟨0x18, 0x20⟩, 4096, 0xBFC00000, true, 0x1000, true,
    ⟨true, fun _ => 0x200000, fun _ => true⟩, true, some (0x8048000, 0x804A000),
    true, true, 0x300000, true, fun _ => 0⟩

/-- Initial kernel state for the concrete runs. -/
def sysOk : Sys := ⟨0xE0000000, none, fun _ => 0⟩

/-- Claim C1, witness: in the concrete successful run the kernel stack top is
`0xE0001000`, `kernel_esp_for_switch` is `0xE0000FEC`, and the five words
there are (entry `0x8048000`, `0x18 | 3`, `0x202`, `0xBFC00000`,
`0x20 | 3`). -/
theorem C1_witness :
    (create_user_process envOk sysOk 1).result =
        some ⟨1, 0x1000, true, 0xE0001000, 0x200000, 0x8048000, 0xBFC00000, 0xE0000FEC⟩ ∧
      (create_user_process envOk sysOk 1).sys.mem 0xE0000FEC = 0x8048000 ∧
      (create_user_process envOk sysOk 1).sys.mem 0xE0000FF0 = (0x18 ||| 3) ∧
      (create_user_process envOk sysOk 1).sys.mem 0xE0000FF4 = 0x202 ∧
      (create_user_process envOk sysOk 1).sys.mem 0xE0000FF8 = 0xBFC00000 ∧
      (create_user_process envOk sysOk 1).sys.mem 0xE0000FFC = (0x20 ||| 3) := by
  have h := C1_iret_frame_layout envOk sysOk 1
    ⟨1, 0x1000, true, 0xE0001000, 0x200000, 0x8048000, 0xBFC00000, 0xE0000FEC⟩
    (0x8048000, 0x804A000) rfl (by decide)
  exact ⟨by decide, h.2.1, h.2.2.1, h.2.2.2.1, h.2.2.2.2.1, h.2.2.2.2.2⟩

/-- Claim C4, counterexample: the claim says the last PDE equals the
directory's physical address OR-ed with the present and read/write flags *and
nothing else*; the code (process.c:653) additionally sets `PAGE_NX_BIT`
(bit 9).  In the concrete successful run with PD frame `0x1000`, the last PDE
is `0x1203`, not `0x1003`. -/
theorem C4_counterexample :
    (create_user_process envOk sysOk 1).result.isSome = true ∧
      (create_user_process envOk sysOk 1).pd RECURSIVE_PDE_INDEX ≠
        (envOk.pd_frame ||| (PAGE_PRESENT ||| PAGE_RW)) := by
  refine ⟨by decide, by decide⟩

/-- Claim C4 (amended): for every page directory created by
`create_user_process` (the frame address is page-aligned and below 2^32), the
last PDE (index 1023) equals exactly the directory's own physical address
OR-ed with the present, read/write, *and software NX-intent* flags — i.e. the
address plus `0x203` — and nothing else. -/
theorem C4_recursive_pde (env : CreateEnv) (s : Sys) (pid : Nat) (pcb : PCB)
    (h : (create_user_process env s pid).result = some pcb)
    (halign : env.pd_frame % PAGE_SIZE = 0) (hlt : env.pd_frame < two32) :
    (create_user_process env s pid).pd RECURSIVE_PDE_INDEX =
      pcb.page_directory_phys + (PAGE_PRESENT + PAGE_RW + PAGE_NX_BIT) := by
  rcases helf : env.elf_result with _ | eb
  · simp only [create_user_process, helf] at h
    split_ifs at h <;> exact Option.noConfusion h
  · simp only [create_user_process, helf] at h ⊢
    split_ifs at h ⊢
    all_goals try (exact Option.noConfusion h)
    replace h := Option.some.inj h
    subst h
    exact initProcessPD_recursive env.kernel_pde env.pd_frame halign hlt

/-- Claim C4, witness: in the concrete successful run the last PDE is
`0x1000 + 0x203 = 0x1203`. -/
theorem C4_witness :
    (create_user_process envOk sysOk 1).pd RECURSIVE_PDE_INDEX = 0x1203 := by
  have h := C4_recursive_pde envOk sysOk 1
    ⟨1, 0x1000, true, 0xE0001000, 0x200000, 0x8048000, 0xBFC00000, 0xE0000FEC⟩
    (by decide) (by decide) (by decide)
  rw [h]
  decide

/-- Claim C10: `create_user_process` publishes the new kernel-stack top to the
TSS `esp0` before ELF loading; when a step after kernel-stack allocation
fails, the failure path calls `destroy_process` on the partial PCB — which
unmaps and frees that kernel stack — without restoring the previous TSS
`esp0`, so after the failed call the TSS `esp0` still holds the destroyed
process's kernel-stack top. -/
theorem C10_tss_esp0_stale_after_failed_create (env : CreateEnv) (s : Sys) (pid : Nat)
    (h1 : env.kmalloc_pcb_ok = true) (h2 : env.pd_frame ≠ 0)
    (h3 : env.pd_temp_map_ok = true) (hks : (ksRes env s).ok = true)
    (hfail : (create_user_process env s pid).result = none) :
    (create_user_process env s pid).sys.tss_esp0 = some (ksRes env s).vaddr_top ∧
      ∃ p, (create_user_process env s pid).destroyed = some p ∧
        p.kernel_stack_vaddr_top = (ksRes env s).vaddr_top ∧
        ∀ lookup, DOp.unmapRange ((ksRes env s).vaddr_top - env.kstack_size)
          env.kstack_size ∈ destroy_process lookup env.kstack_size p := by
  have htop : KERNEL_STACK_VIRT_START < (ksRes env s).vaddr_top :=
    allocate_ok_top env.ks env.kstack_size s.g_next hks
  have htopne : (ksRes env s).vaddr_top ≠ 0 := by
    have hs : KERNEL_STACK_VIRT_START = 0xE0000000 := rfl
    omega
  rcases helf : env.elf_result with _ | eb
  · simp only [create_user_process, helf] at hfail ⊢
    split_ifs at hfail ⊢
    all_goals first
      | exact Option.noConfusion hfail
      | (refine ⟨rfl, ⟨_, rfl, rfl, ?_⟩⟩
         intro lookup
         exact unmapRange_mem_destroy lookup env.kstack_size _ htopne)
      | simp_all
  · simp only [create_user_process, helf] at hfail ⊢
    split_ifs at hfail ⊢
    all_goals first
      | exact Option.noConfusion hfail
      | (refine ⟨rfl, ⟨_, rfl, rfl, ?_⟩⟩
         intro lookup
         exact unmapRange_mem_destroy lookup env.kstack_size _ htopne)
      | simp_all

/-- The concrete run in which every step up to and including the TSS update
succeeds, and the ELF load then fails. -/
def envElfFail : CreateEnv :=
  ⟨⟨0x18, 0x20⟩, 4096, 0xBFC00000, true, 0x1000, true,
    ⟨true, fun _ => 0x200000, fun _ => true⟩, true, none,
    true, true, 0x300000, true, fun _ => 0⟩

/-- Claim C10, witness: with the ELF load failing after a successful
kernel-stack allocation, `create_user_process` returns `NULL`, the TSS `esp0`
is left at the destroyed stack's top `0xE0001000`, and the destroy trace
unmaps that stack. -/
theorem C10_witness :
    (ksRes envElfFail sysOk).ok = true ∧
      (create_user_process envElfFail sysOk 1).result = none ∧
      ((create_user_process envElfFail sysOk 1).sys.tss_esp0 =
          some (ksRes envElfFail sysOk).vaddr_top ∧
        ∃ p, (create_user_process envElfFail sysOk 1).destroyed = some p ∧
          p.kernel_stack_vaddr_top = (ksRes envElfFail sysOk).vaddr_top ∧
          ∀ lookup, DOp.unmapRange ((ksRes envElfFail sysOk).vaddr_top -
            envElfFail.kstack_size) envElfFail.kstack_size ∈
              destroy_process lookup envElfFail.kstack_size p) :=
  ⟨by decide, by decide,
    C10_tss_esp0_stale_after_failed_create envElfFail sysOk 1 rfl (by decide) rfl
      (by decide) (by decide)⟩

/-- Claim C6, witness: with `frame_alloc` exhausted from the start, the call
fails having allocated and released nothing, and the bump pointer is
untouched. -/
theorem C6_witness :
    (allocate_kernel_stack ⟨true, fun _ => 0, fun _ => true⟩ 4096 0xE0000000).ok = false ∧
      ((allocate_kernel_stack ⟨true, fun _ => 0, fun _ => true⟩ 4096 0xE0000000).frames_put =
          (allocate_kernel_stack ⟨true, fun _ => 0, fun _ => true⟩ 4096
            0xE0000000).frames_alloced ∧
        (allocate_kernel_stack ⟨true, fun _ => 0, fun _ => true⟩ 4096
            0xE0000000).next_base = 0xE0000000 ∧
        ∀ v ∈ (allocate_kernel_stack ⟨true, fun _ => 0, fun _ => true⟩ 4096
            0xE0000000).mapped_pages,
          ∃ c ∈ (allocate_kernel_stack ⟨true, fun _ => 0, fun _ => true⟩ 4096
            0xE0000000).unmap_calls, c.1 ≤ v ∧ v < c.1 + c.2) :=
  ⟨by decide,
    C6_allocate_kernel_stack_cleanup ⟨true, fun _ => 0, fun _ => true⟩ 4096 0xE0000000
      (by decide)⟩

/-! ### ELF32 loader (process.c:290-500, `load_elf_and_init_memory`) -/

def PT_LOAD : Nat := 1

def PF_X : Nat := 1

def PF_W : Nat := 2

def PF_R : Nat := 4

structure Elf32_Phdr where
  p_type : Nat
  p_offset : Nat
  p_vaddr : Nat
  p_filesz : Nat
  p_memsz : Nat
  p_flags : Nat
deriving DecidableEq

structure Elf32_Ehdr where
  ei_mag0 : Nat
  ei_mag1 : Nat
  ei_mag2 : Nat
  ei_mag3 : Nat
  ei_class : Nat
  ei_data : Nat
  e_type : Nat
  e_machine : Nat
  e_version : Nat
  e_entry : Nat
  e_phoff : Nat
  e_phentsize : Nat
  e_phnum : Nat
deriving DecidableEq

/-- A file as returned by `read_file`: the decoded ELF header, the decoded
program-header table (the `e_phnum` entries of `e_phentsize` bytes at
`e_phoff`), the raw bytes, and the size. -/
structure ElfFile where
  ehdr : Elf32_Ehdr
  phdrs : List Elf32_Phdr
  bytes : Nat → Nat
  size : Nat

/-- The C fields are 32-bit (`Elf32_Word`/`Elf32_Addr`/`Elf32_Off`). -/
def phdrFits (ph : Elf32_Phdr) : Prop :=
  ph.p_vaddr < two32 ∧ ph.p_memsz < two32 ∧ ph.p_filesz < two32 ∧ ph.p_offset < two32

instance (ph : Elf32_Phdr) : Decidable (phdrFits ph) := by
  unfold phdrFits
  infer_instance

/-- The ELF header validation of process.c:320-335 (the size check of line
311 is separate).  `e_phoff + e_phnum * e_phentsize` is computed in 64-bit in
the C code, which cannot wrap for 32/16-bit fields, so it is plain here. -/
def headerValid (f : ElfFile) : Prop :=
  f.ehdr.ei_mag0 = 0x7F ∧ f.ehdr.ei_mag1 = 0x45 ∧ f.ehdr.ei_mag2 = 0x4C ∧
    f.ehdr.ei_mag3 = 0x46 ∧ f.ehdr.ei_class = 1 ∧ f.ehdr.ei_data = 1 ∧
    f.ehdr.e_type = 2 ∧ f.ehdr.e_machine = 3 ∧ f.ehdr.e_version = 1 ∧
    f.ehdr.e_phentsize = 32 ∧ f.ehdr.e_phoff ≠ 0 ∧ f.ehdr.e_phnum ≠ 0 ∧
    f.ehdr.e_phoff + f.ehdr.e_phnum * f.ehdr.e_phentsize ≤ f.size ∧
    f.ehdr.e_entry ≠ 0

instance (f : ElfFile) : Decidable (headerValid f) := by
  unfold headerValid
  infer_instance

/-- The segment-geometry rejection test of process.c:360-364, with the 32-bit
wrap of `p_vaddr + p_memsz` explicit. -/
def segBadP (ph : Elf32_Phdr) (file_size : Nat) : Prop :=
  KERNEL_VIRT_BASE ≤ ph.p_vaddr ∨
    (KERNEL_VIRT_BASE < (ph.p_vaddr + ph.p_memsz) % two32 ∧ ph.p_vaddr < KERNEL_VIRT_BASE) ∨
    (ph.p_vaddr + ph.p_memsz) % two32 < ph.p_vaddr ∨
    ph.p_memsz < ph.p_filesz ∨
    file_size < ph.p_offset ∨
    file_size - ph.p_offset < ph.p_filesz

instance (ph : Elf32_Phdr) (file_size : Nat) : Decidable (segBadP ph file_size) := by
  unfold segBadP
  infer_instance

/-- `vm_start = PAGE_ALIGN_DOWN(p_vaddr)` (process.c:378). -/
def segStart (ph : Elf32_Phdr) : Nat := PAGE_ALIGN_DOWN ph.p_vaddr

/-- `vm_end = PAGE_ALIGN_UP(p_vaddr + p_memsz)` (process.c:379), on 32-bit
arithmetic. -/
def segEnd (ph : Elf32_Phdr) : Nat := PAGE_ALIGN_UP ((ph.p_vaddr + ph.p_memsz) % two32)

/-- `page_end_vaddr` with the overflow fixup of process.c:421. -/
def pageEndFix (page_v : Nat) : Nat :=
  if (page_v + PAGE_SIZE) % two32 ≤ page_v then UINTPTR_MAX else (page_v + PAGE_SIZE) % two32

/-- `mem_end_vaddr` with the overflow fixup of process.c:431. -/
def memEndFix (ph : Elf32_Phdr) : Nat :=
  if (ph.p_vaddr + ph.p_memsz) % two32 < ph.p_vaddr then UINTPTR_MAX
  else (ph.p_vaddr + ph.p_memsz) % two32

/-- `copy_size_this_page` (process.c:424-426). -/
def copySize (ph : Elf32_Phdr) (page_v : Nat) : Nat :=
  if max page_v ph.p_vaddr < min (pageEndFix page_v) ((ph.p_vaddr + ph.p_filesz) % two32) then
    min (pageEndFix page_v) ((ph.p_vaddr + ph.p_filesz) % two32) - max page_v ph.p_vaddr
  else 0

/-- `file_buffer_offset` (process.c:427). -/
def fileBufOffset (ph : Elf32_Phdr) (page_v : Nat) : Nat :=
  if 0 < copySize ph page_v then (max page_v ph.p_vaddr - ph.p_vaddr + ph.p_offset) % two32
  else 0

/-- `zero_padding_this_page` (process.c:430-434). -/
def zeroPadding (ph : Elf32_Phdr) (page_v : Nat) : Nat :=
  if (page_v + copySize ph page_v) % two32 < min (pageEndFix page_v) (memEndFix ph) then
    min (pageEndFix page_v) (memEndFix ph) - (page_v + copySize ph page_v) % two32
  else 0

/-- Byte `j` of the frame populated for page `page_v` by
`copy_elf_segment_data` (process.c:238-274): the `memcpy` of the file slice to
the frame start, then the `memset` of the BSS slice; `old` is the frame's
content before population (`frame_alloc` does not zero). -/
def framePageByte (ph : Elf32_Phdr) (f : ElfFile) (old : Nat → Nat) (page_v j : Nat) : Nat :=
  if j < copySize ph page_v then f.bytes (fileBufOffset ph page_v + j)
  else if j < copySize ph page_v + zeroPadding ph page_v then 0
  else old j

/-- Outcomes of the external calls the loader's page loop makes, keyed by the
target page virtual address: `frame_alloc` (0 = exhaustion),
`paging_temp_map` inside `copy_elf_segment_data`, `paging_map_single_4k`, and
the previous content of the frame handed out for a page. -/
structure LoadEnv where
  frames : Nat → Nat
  temp_ok : Nat → Bool
  map_ok : Nat → Bool
  uninit : Nat → Nat → Nat

/-- Loader state across segments: the VMA spans inserted so far, the process's
virtual memory content, the pages mapped into the process PD, and
`highest_addr_loaded`. -/
structure LoadState where
  vmas : List (Nat × Nat)
  mem : Nat → Nat
  maps : List (Nat × Nat)
  highest : Nat

/-- Mapping a freshly populated frame at `v` replaces that whole virtual page. -/
def overlayPage (ph : Elf32_Phdr) (f : ElfFile) (env : LoadEnv) (mem : Nat → Nat)
    (v : Nat) : Nat → Nat :=
  fun a => if v ≤ a ∧ a < v + PAGE_SIZE then framePageByte ph f (env.uninit v) v (a - v)
  else mem a

/-- The per-segment page loop (process.c:405-465): for page `i` of the span,
`frame_alloc`, the `copy+zero ≤ PAGE_SIZE` sanity check, the populate via the
temporary mapping, and `paging_map_single_4k`; any failure aborts the load. -/
def loadPagesGo (env : LoadEnv) (f : ElfFile) (ph : Elf32_Phdr) (start : Nat) :
    Nat → Nat → (Nat → Nat) → List (Nat × Nat) → Option ((Nat → Nat) × List (Nat × Nat))
  | _, 0, mem, maps => some (mem, maps)
  | i, n + 1, mem, maps =>
    if env.frames (start + i * PAGE_SIZE) = 0 then none
    else if PAGE_SIZE < copySize ph (start + i * PAGE_SIZE) +
        zeroPadding ph (start + i * PAGE_SIZE) then none
    else if env.temp_ok (start + i * PAGE_SIZE) = false then none
    else if env.map_ok (start + i * PAGE_SIZE) = false then none
    else loadPagesGo env f ph start (i + 1) n
      (overlayPage ph f env mem (start + i * PAGE_SIZE))
      (maps ++ [(start + i * PAGE_SIZE, env.frames (start + i * PAGE_SIZE))])

/-- Modelled from the spec: `insert_vma` (mm.c, not under src/) "inserts in
sorted order; returns failure on overlap or on span crossing into kernel
space". -/
def insert_vma_ok (vmas : List (Nat × Nat)) (s e : Nat) : Prop :=
  e ≤ KERNEL_VIRT_BASE ∧ ∀ p ∈ vmas, e ≤ p.1 ∨ p.2 ≤ s

instance (vmas : List (Nat × Nat)) (s e : Nat) : Decidable (insert_vma_ok vmas s e) := by
  unfold insert_vma_ok
  infer_instance

/-- `current_segment_end` with the overflow clamp of process.c:468-470. -/
def segHigh (ph : Elf32_Phdr) : Nat :=
  if (ph.p_vaddr + ph.p_memsz) % two32 < ph.p_vaddr then UINTPTR_MAX
  else (ph.p_vaddr + ph.p_memsz) % two32

/-- One iteration of the segment loop (process.c:349-475): skip non-PT_LOAD
or `memsz = 0` segments; reject bad geometry; skip when the aligned span is
empty; insert the VMA (failure aborts); then allocate/populate/map every page
of the span and update `highest_addr_loaded`. -/
def processSegment (env : LoadEnv) (f : ElfFile) (st : LoadState) (ph : Elf32_Phdr) :
    Option LoadState :=
  if ph.p_type ≠ PT_LOAD ∨ ph.p_memsz = 0 then some st
  else if segBadP ph f.size then none
  else if segEnd ph ≤ segStart ph then some st
  else if ¬ insert_vma_ok st.vmas (segStart ph) (segEnd ph) then none
  else
    Option.bind
      (loadPagesGo env f ph (segStart ph) 0 ((segEnd ph - segStart ph) / PAGE_SIZE)
        st.mem st.maps)
      (fun mm => some ⟨st.vmas ++ [(segStart ph, segEnd ph)], mm.1, mm.2,
        if st.highest < segHigh ph then segHigh ph else st.highest⟩)

/-- The segment loop as a fold over the program-header table. -/
def segFold (env : LoadEnv) (f : ElfFile) (l : List Elf32_Phdr) (st0 : Option LoadState) :
    Option LoadState :=
  l.foldl (fun acc ph => Option.bind acc (fun st => processSegment env f st ph)) st0

/-- The loader's report on success. -/
structure LoadOut where
  entry : Nat
  brk : Nat
  mem : Nat → Nat
  maps : List (Nat × Nat)
  vmas : List (Nat × Nat)

/-- `load_elf_and_init_memory` (process.c:290-500): size check, header
validation (the `e_entry ≥ KERNEL_VIRT_BASE` comparison at process.c:336 only
logs a warning), the segment loop, then
`initial_brk = PAGE_ALIGN_UP(highest_addr_loaded)` with the overflow clamp of
process.c:479-481, reporting `e_entry` as the entry point. -/
def load_elf_and_init_memory (env : LoadEnv) (f : ElfFile) (init_mem : Nat → Nat) :
    Option LoadOut :=
  if f.size < 52 then none
  else if ¬ headerValid f then none
  else
    Option.bind (segFold env f f.phdrs (some ⟨[], init_mem, [], 0⟩))
      (fun st => some ⟨f.ehdr.e_entry,
        if PAGE_ALIGN_UP st.highest < st.highest then UINTPTR_MAX
        else PAGE_ALIGN_UP st.highest,
        st.mem, st.maps, st.vmas⟩)

theorem segFold_none (env : LoadEnv) (f : ElfFile) (l : List Elf32_Phdr) :
    segFold env f l none = none := by
  induction l with
  | nil => rfl
  | cons ph t ih => exact ih

theorem segFold_some_split (env : LoadEnv) (f : ElfFile) (ph : Elf32_Phdr)
    (t : List Elf32_Phdr) (st0 st' : LoadState)
    (h : segFold env f (ph :: t) (some st0) = some st') :
    ∃ st₁, processSegment env f st0 ph = some st₁ ∧ segFold env f t (some st₁) = some st' := by
  have hstep : segFold env f (ph :: t) (some st0) =
      segFold env f t (processSegment env f st0 ph) := rfl
  rcases hps : processSegment env f st0 ph with _ | st₁
  · rw [hstep, hps, segFold_none] at h
    exact Option.noConfusion h
  · rw [hstep, hps] at h
    exact ⟨st₁, rfl, h⟩

/-- Facts available for a `PT_LOAD, memsz > 0` segment that passed the
geometry validation (process.c:360-369), given 32-bit field widths. -/
theorem segGeom_facts (ph : Elf32_Phdr) (fsize : Nat) (hfit : phdrFits ph)
    (hgood : ¬ segBadP ph fsize) (hpos : 0 < ph.p_memsz) :
    ph.p_vaddr + ph.p_memsz < two32 ∧
      ph.p_vaddr + ph.p_memsz ≤ KERNEL_VIRT_BASE ∧
      ph.p_filesz ≤ ph.p_memsz ∧
      ph.p_offset ≤ fsize ∧
      ph.p_filesz ≤ fsize - ph.p_offset ∧
      segStart ph ≤ ph.p_vaddr ∧
      segStart ph % PAGE_SIZE = 0 ∧
      segEnd ph % PAGE_SIZE = 0 ∧
      ph.p_vaddr + ph.p_memsz ≤ segEnd ph ∧
      segEnd ph ≤ KERNEL_VIRT_BASE ∧
      segStart ph < segEnd ph := by
  obtain ⟨hv, hm, hf, ho⟩ := hfit
  unfold segBadP at hgood
  push_neg at hgood
  obtain ⟨hk1, hk2, hk3, hk4, hk5, hk6⟩ := hgood
  have hk2' : (ph.p_vaddr + ph.p_memsz) % two32 ≤ KERNEL_VIRT_BASE := by
    rcases le_or_lt ((ph.p_vaddr + ph.p_memsz) % two32) KERNEL_VIRT_BASE with hle | hlt
    · exact hle
    · exact absurd (hk2 hlt) (not_le_of_lt hk1)
  clear hk2
  simp only [segStart, segEnd, PAGE_ALIGN_DOWN, PAGE_ALIGN_UP, PAGE_SIZE, two32,
    KERNEL_VIRT_BASE] at *
  omega

theorem segHigh_eq (ph : Elf32_Phdr) (hnw : ph.p_vaddr + ph.p_memsz < two32) :
    segHigh ph = ph.p_vaddr + ph.p_memsz := by
  unfold segHigh
  rw [Nat.mod_eq_of_lt hnw, if_neg (by omega)]

theorem processSegment_highest (env : LoadEnv) (f : ElfFile) (st : LoadState)
    (ph : Elf32_Phdr) (st' : LoadState) (hfit : phdrFits ph)
    (h : processSegment env f st ph = some st') (hb : st.highest ≤ KERNEL_VIRT_BASE) :
    st'.highest = (if ph.p_type = PT_LOAD ∧ 0 < ph.p_memsz
        then max st.highest (ph.p_vaddr + ph.p_memsz) else st.highest) ∧
      st'.highest ≤ KERNEL_VIRT_BASE := by
  unfold processSegment at h
  by_cases hp : ph.p_type = PT_LOAD ∧ 0 < ph.p_memsz
  · rw [if_pos hp]
    rw [if_neg (fun hor => hor.elim (fun hne => hne hp.1) (fun hz => by omega))] at h
    by_cases hbad : segBadP ph f.size
    · rw [if_pos hbad] at h
      exact Option.noConfusion h
    · rw [if_neg hbad] at h
      obtain ⟨hnw, hker, _, _, _, _, _, _, _, _, hlt⟩ :=
        segGeom_facts ph f.size hfit hbad hp.2
      rw [if_neg (by omega)] at h
      by_cases hins : insert_vma_ok st.vmas (segStart ph) (segEnd ph)
      · rw [if_neg (not_not_intro hins)] at h
        rcases hlp : loadPagesGo env f ph (segStart ph) 0
            ((segEnd ph - segStart ph) / PAGE_SIZE) st.mem st.maps with _ | mm
        · rw [hlp] at h
          exact Option.noConfusion h
        · rw [hlp, Option.some_bind] at h
          obtain rfl : _ = st' := Option.some.inj h
          constructor
          · show (if st.highest < segHigh ph then segHigh ph else st.highest) =
              max st.highest (ph.p_vaddr + ph.p_memsz)
            rw [segHigh_eq ph hnw]
            rcases Nat.lt_or_ge st.highest (ph.p_vaddr + ph.p_memsz) with hc | hc
            · rw [if_pos hc, Nat.max_eq_right hc.le]
            · rw [if_neg (not_lt.mpr hc), Nat.max_eq_left hc]
          · show (if st.highest < segHigh ph then segHigh ph else st.highest) ≤
              KERNEL_VIRT_BASE
            rw [segHigh_eq ph hnw]
            rcases Nat.lt_or_ge st.highest (ph.p_vaddr + ph.p_memsz) with hc | hc
            · rw [if_pos hc]
              exact hker
            · rw [if_neg (not_lt.mpr hc)]
              exact hb
      · rw [if_pos hins] at h
        exact Option.noConfusion h
  · rw [if_neg hp]
    rw [if_pos (Or.imp id (fun hh => by omega) (not_and_or.mp hp))] at h
    obtain rfl : st = st' := Option.some.inj h
    exact ⟨rfl, hb⟩

theorem segFold_highest (env : LoadEnv) (f : ElfFile) (l : List Elf32_Phdr)
    (hfit : ∀ ph ∈ l, phdrFits ph) :
    ∀ st st', segFold env f l (some st) = some st' → st.highest ≤ KERNEL_VIRT_BASE →
      st'.highest = l.foldl (fun m ph => if ph.p_type = PT_LOAD ∧ 0 < ph.p_memsz
          then max m (ph.p_vaddr + ph.p_memsz) else m) st.highest ∧
        st'.highest ≤ KERNEL_VIRT_BASE := by
  induction l with
  | nil =>
    intro st st' h hb
    obtain rfl := Option.some.inj h
    exact ⟨rfl, hb⟩
  | cons ph t ih =>
    intro st st' h hb
    obtain ⟨st₁, hstep, hrest⟩ := segFold_some_split env f ph t st st' h
    obtain ⟨he, hble⟩ := processSegment_highest env f st ph st₁
      (hfit ph (List.mem_cons_self _ _)) hstep hb
    obtain ⟨he2, hb2⟩ := ih (fun x hx => hfit x (List.mem_cons_of_mem _ hx)) st₁ st' hrest hble
    refine ⟨?_, hb2⟩
    rw [List.foldl_cons, ← he, he2]

/-- `max (p_vaddr + p_memsz)` over all `PT_LOAD` segments with `memsz > 0`
(0 when there are none): the claim's description of
`highest_addr_loaded`. -/
def maxLoadEnd (f : ElfFile) : Nat :=
  f.phdrs.foldl (fun m ph => if ph.p_type = PT_LOAD ∧ 0 < ph.p_memsz
    then max m (ph.p_vaddr + ph.p_memsz) else m) 0

/-- Claim C5: on success `load_elf_and_init_memory` reports
`initial_brk = PAGE_ALIGN_UP(max(vaddr+memsz))` over all PT_LOAD segments
with `memsz > 0`, and the entry point equal to the ELF header's `e_entry`.
Stated for files whose segment fields fit their 32-bit C types. -/
theorem C5_entry_and_brk (env : LoadEnv) (f : ElfFile) (m0 : Nat → Nat) (out : LoadOut)
    (hfit : ∀ ph ∈ f.phdrs, phdrFits ph)
    (h : load_elf_and_init_memory env f m0 = some out) :
    out.entry = f.ehdr.e_entry ∧ out.brk = PAGE_ALIGN_UP (maxLoadEnd f) := by
  revert h
  unfold load_elf_and_init_memory
  split_ifs with h1 h2
  · exact fun h => h.elim
  case neg => exact fun h => h.elim
  · intro h
    rcases hfold : segFold env f f.phdrs (some ⟨[], m0, [], 0⟩) with _ | st
    · rw [hfold] at h
      exact Option.noConfusion h
    · rw [hfold] at h
      obtain rfl := Option.some.inj h
      obtain ⟨hh, hb⟩ := segFold_highest env f f.phdrs hfit ⟨[], m0, [], 0⟩ st hfold
        (Nat.zero_le _)
      refine ⟨rfl, ?_⟩
      show (if PAGE_ALIGN_UP st.highest < st.highest then UINTPTR_MAX
        else PAGE_ALIGN_UP st.highest) = PAGE_ALIGN_UP (maxLoadEnd f)
      have hmx : st.highest = maxLoadEnd f := hh
      have hnotlt : ¬ (PAGE_ALIGN_UP st.highest < st.highest) := by
        simp only [PAGE_ALIGN_UP, PAGE_SIZE, two32, KERNEL_VIRT_BASE] at *
        omega
      rw [if_neg hnotlt, hmx]

/-- Claim C5, witness: a single PT_LOAD at `0x8048000` with `memsz = 0x2000`
and entry `0x8048000` yields entry `0x8048000` and brk `0x804A000`. -/
theorem C5_witness :
    (load_elf_and_init_memory ⟨fun _ => 0x400000, fun _ => true, fun _ => true, fun _ _ => 0⟩
        ⟨⟨0x7F, 0x45, 0x4C, 0x46, 1, 1, 2, 3, 1, 0x8048000, 52, 32, 1⟩,
          [⟨1, 0x1000, 0x8048000, 0x100, 0x2000, 5⟩], fun _ => 0, 0x2000⟩
        (fun _ => 0)).isSome = true ∧
      ∀ out, (load_elf_and_init_memory ⟨fun _ => 0x400000, fun _ => true, fun _ => true,
          fun _ _ => 0⟩
        ⟨⟨0x7F, 0x45, 0x4C, 0x46, 1, 1, 2, 3, 1, 0x8048000, 52, 32, 1⟩,
          [⟨1, 0x1000, 0x8048000, 0x100, 0x2000, 5⟩], fun _ => 0, 0x2000⟩
        (fun _ => 0)) = some out → out.entry = 0x8048000 ∧ out.brk = 0x804A000 := by
  refine ⟨by decide, ?_⟩
  intro out h
  have hc := C5_entry_and_brk ⟨fun _ => 0x400000, fun _ => true, fun _ => true, fun _ _ => 0⟩
    ⟨⟨0x7F, 0x45, 0x4C, 0x46, 1, 1, 2, 3, 1, 0x8048000, 52, 32, 1⟩,
      [⟨1, 0x1000, 0x8048000, 0x100, 0x2000, 5⟩], fun _ => 0, 0x2000⟩
    (fun _ => 0) out (by decide) h
  refine ⟨hc.1.trans (by decide), hc.2.trans (by decide)⟩

/-- A `PT_LOAD` segment with `memsz > 0` and bad geometry makes the segment
loop fail from any state. -/
theorem processSegment_err_of_bad (env : LoadEnv) (f : ElfFile) (st : LoadState)
    (ph : Elf32_Phdr) (htype : ph.p_type = PT_LOAD) (hpos : 0 < ph.p_memsz)
    (hbad : segBadP ph f.size) :
    processSegment env f st ph = none := by
  unfold processSegment
  rw [if_neg (fun hor => hor.elim (fun hne => hne htype) (fun hz => by omega)),
    if_pos hbad]

theorem segFold_err_of_mem (env : LoadEnv) (f : ElfFile) (l : List Elf32_Phdr)
    (ph : Elf32_Phdr) (hm : ph ∈ l)
    (hstep : ∀ st, processSegment env f st ph = none) :
    ∀ acc, segFold env f l acc = none := by
  induction l with
  | nil => cases hm
  | cons x t ih =>
    intro acc
    rcases List.mem_cons.mp hm with rfl | hm'
    · show segFold env f t (Option.bind acc (fun st => processSegment env f st ph)) = none
      rcases acc with _ | st
      · exact segFold_none env f t
      · rw [Option.some_bind, hstep st]
        exact segFold_none env f t
    · exact ih hm' _

/-- Claim C8 (amended): `load_elf_and_init_memory` fails for every file whose
ELF header violates any validated condition — wrong magic bytes, not
ELFCLASS32, not little-endian, type not ET_EXEC, machine not EM_386, version
not EV_CURRENT, `phentsize ≠ sizeof(Elf32_Phdr)`,
`phoff + phnum·phentsize > file_size`, or `e_entry = 0` — and for every
PT_LOAD segment *with `memsz > 0`* whose `[vaddr, vaddr+memsz)` touches
kernel space or wraps around, whose `filesz > memsz`, or whose file slice
lies outside the file buffer. -/
theorem C8_validation_rejects (env : LoadEnv) (f : ElfFile) (m0 : Nat → Nat) :
    ((f.ehdr.ei_mag0 ≠ 0x7F ∨ f.ehdr.ei_mag1 ≠ 0x45 ∨ f.ehdr.ei_mag2 ≠ 0x4C ∨
        f.ehdr.ei_mag3 ≠ 0x46 ∨ f.ehdr.ei_class ≠ 1 ∨ f.ehdr.ei_data ≠ 1 ∨
        f.ehdr.e_type ≠ 2 ∨ f.ehdr.e_machine ≠ 3 ∨ f.ehdr.e_version ≠ 1 ∨
        f.ehdr.e_phentsize ≠ 32 ∨
        f.size < f.ehdr.e_phoff + f.ehdr.e_phnum * f.ehdr.e_phentsize ∨
        f.ehdr.e_entry = 0) →
      load_elf_and_init_memory env f m0 = none) ∧
    (∀ ph ∈ f.phdrs, ph.p_type = PT_LOAD → 0 < ph.p_memsz →
      (KERNEL_VIRT_BASE ≤ ph.p_vaddr ∨
        (KERNEL_VIRT_BASE < (ph.p_vaddr + ph.p_memsz) % two32 ∧
          ph.p_vaddr < KERNEL_VIRT_BASE) ∨
        (ph.p_vaddr + ph.p_memsz) % two32 < ph.p_vaddr ∨
        ph.p_memsz < ph.p_filesz ∨
        f.size < ph.p_offset ∨ f.size - ph.p_offset < ph.p_filesz) →
      load_elf_and_init_memory env f m0 = none) := by
  constructor
  · intro hviol
    unfold load_elf_and_init_memory
    by_cases h52 : f.size < 52
    · rw [if_pos h52]
    · rw [if_neg h52, if_pos]
      intro hval
      obtain ⟨c1, c2, c3, c4, c5, c6, c7, c8, c9, c10, c11, c12, c13, c14⟩ := hval
      rcases hviol with hx | hx | hx | hx | hx | hx | hx | hx | hx | hx | hx | hx
      · exact hx c1
      · exact hx c2
      · exact hx c3
      · exact hx c4
      · exact hx c5
      · exact hx c6
      · exact hx c7
      · exact hx c8
      · exact hx c9
      · exact hx c10
      · omega
      · exact c14 hx
  · intro ph hm htype hpos hbad
    unfold load_elf_and_init_memory
    by_cases h52 : f.size < 52
    · rw [if_pos h52]
    · rw [if_neg h52]
      by_cases hval : headerValid f
      · rw [if_neg (not_not_intro hval)]
        rw [segFold_err_of_mem env f f.phdrs ph hm
          (fun st => processSegment_err_of_bad env f st ph htype hpos hbad)]
        rfl
      · rw [if_pos hval]

/-- Shared successful oracle set for the loader runs. -/
def loadEnvOk : LoadEnv := ⟨fun _ => 0x400000, fun _ => true, fun _ => true, fun _ _ => 0⟩

/-- A file whose single PT_LOAD program header has `filesz = 1 > memsz = 0`. -/
def elfSkipZero : ElfFile :=
  ⟨⟨0x7F, 0x45, 0x4C, 0x46, 1, 1, 2, 3, 1, 0x1000, 52, 32, 1⟩,
    [⟨1, 0, 0, 1, 0, 5⟩], fun _ => 0, 84⟩

/-- Claim C8, counterexample: the claim as stated demands failure for *every*
PT_LOAD segment with `filesz > memsz`; the code skips PT_LOAD segments with
`memsz = 0` before validating them (process.c:354), so a file whose only
PT_LOAD has `filesz = 1, memsz = 0` loads successfully. -/
theorem C8_counterexample :
    (∃ ph ∈ elfSkipZero.phdrs, ph.p_type = PT_LOAD ∧ ph.p_memsz < ph.p_filesz) ∧
      (load_elf_and_init_memory loadEnvOk elfSkipZero (fun _ => 0)).isSome = true := by
  refine ⟨by decide, by decide⟩

/-- Claim C8, witness: a file with `e_entry = 0` is rejected, and a file with
a PT_LOAD segment (`memsz > 0`) reaching into kernel space is rejected. -/
theorem C8_witness :
    load_elf_and_init_memory loadEnvOk
        ⟨⟨0x7F, 0x45, 0x4C, 0x46, 1, 1, 2, 3, 1, 0, 52, 32, 1⟩,
          [⟨1, 0, 0x1000, 0, 0x1000, 5⟩], fun _ => 0, 84⟩ (fun _ => 0) = none ∧
      load_elf_and_init_memory loadEnvOk
        ⟨⟨0x7F, 0x45, 0x4C, 0x46, 1, 1, 2, 3, 1, 0x1000, 52, 32, 1⟩,
          [⟨1, 0, 0xC0000000, 0, 0x1000, 5⟩], fun _ => 0, 84⟩ (fun _ => 0) = none := by
  constructor
  · exact (C8_validation_rejects loadEnvOk
      ⟨⟨0x7F, 0x45, 0x4C, 0x46, 1, 1, 2, 3, 1, 0, 52, 32, 1⟩,
        [⟨1, 0, 0x1000, 0, 0x1000, 5⟩], fun _ => 0, 84⟩ (fun _ => 0)).1 (by decide)
  · exact (C8_validation_rejects loadEnvOk
      ⟨⟨0x7F, 0x45, 0x4C, 0x46, 1, 1, 2, 3, 1, 0x1000, 52, 32, 1⟩,
        [⟨1, 0, 0xC0000000, 0, 0x1000, 5⟩], fun _ => 0, 84⟩ (fun _ => 0)).2
      ⟨1, 0, 0xC0000000, 0, 0x1000, 5⟩ (by decide) (by decide) (by decide) (by decide)

theorem loadPagesGo_ehdr_irrel (env : LoadEnv) (e1 e2 : Elf32_Ehdr)
    (ps : List Elf32_Phdr) (b : Nat → Nat) (sz : Nat) (ph : Elf32_Phdr) (start : Nat) :
    ∀ n i mem maps, loadPagesGo env ⟨e1, ps, b, sz⟩ ph start i n mem maps =
      loadPagesGo env ⟨e2, ps, b, sz⟩ ph start i n mem maps := by
  intro n
  induction n with
  | zero =>
    intro i mem maps
    rfl
  | succ n ih =>
    intro i mem maps
    unfold loadPagesGo
    split_ifs
    · rfl
    · rfl
    · rfl
    · rfl
    · exact ih (i + 1) (overlayPage ph ⟨e1, ps, b, sz⟩ env mem (start + i * PAGE_SIZE)) _

theorem processSegment_ehdr_irrel (env : LoadEnv) (e1 e2 : Elf32_Ehdr)
    (ps : List Elf32_Phdr) (b : Nat → Nat) (sz : Nat) (st : LoadState) (ph : Elf32_Phdr) :
    processSegment env ⟨e1, ps, b, sz⟩ st ph = processSegment env ⟨e2, ps, b, sz⟩ st ph := by
  unfold processSegment
  split_ifs
  all_goals try rfl
  all_goals rw [loadPagesGo_ehdr_irrel env e1 e2 ps b sz ph (segStart ph)]

theorem segFold_ehdr_irrel (env : LoadEnv) (e1 e2 : Elf32_Ehdr) (ps : List Elf32_Phdr)
    (b : Nat → Nat) (sz : Nat) (l : List Elf32_Phdr) :
    ∀ acc, segFold env ⟨e1, ps, b, sz⟩ l acc = segFold env ⟨e2, ps, b, sz⟩ l acc := by
  induction l with
  | nil => intro acc; rfl
  | cons x t ih =>
    intro acc
    have hstep : (Option.bind acc fun st => processSegment env ⟨e1, ps, b, sz⟩ st x) =
        (Option.bind acc fun st => processSegment env ⟨e2, ps, b, sz⟩ st x) := by
      rcases acc with _ | st
      · rfl
      · rw [Option.some_bind, Option.some_bind,
          processSegment_ehdr_irrel env e1 e2 ps b sz st x]
    calc segFold env ⟨e1, ps, b, sz⟩ (x :: t) acc
        = segFold env ⟨e1, ps, b, sz⟩ t
            (Option.bind acc fun st => processSegment env ⟨e1, ps, b, sz⟩ st x) := rfl
      _ = segFold env ⟨e1, ps, b, sz⟩ t
            (Option.bind acc fun st => processSegment env ⟨e2, ps, b, sz⟩ st x) := by
          rw [hstep]
      _ = segFold env ⟨e2, ps, b, sz⟩ t
            (Option.bind acc fun st => processSegment env ⟨e2, ps, b, sz⟩ st x) := ih _

/-- Claim C9 (amended): the loader does *not* reject `e_entry ≥
KERNEL_VIRT_BASE`; the comparison at process.c:336-339 only logs a warning.
Only `e_entry = 0` is rejected: replacing one nonzero entry point by any
other nonzero value — in particular one at or above `KERNEL_VIRT_BASE` —
never changes whether the file loads. -/
theorem C9_entry_bound_not_enforced (env : LoadEnv) (f : ElfFile) (m0 : Nat → Nat)
    (v1 v2 : Nat) (h1 : v1 ≠ 0) (h2 : v2 ≠ 0) :
    (load_elf_and_init_memory env ⟨{ f.ehdr with e_entry := v1 }, f.phdrs, f.bytes,
        f.size⟩ m0).isSome =
      (load_elf_and_init_memory env ⟨{ f.ehdr with e_entry := v2 }, f.phdrs, f.bytes,
        f.size⟩ m0).isSome := by
  have hiff : headerValid ⟨{ f.ehdr with e_entry := v1 }, f.phdrs, f.bytes, f.size⟩ ↔
      headerValid ⟨{ f.ehdr with e_entry := v2 }, f.phdrs, f.bytes, f.size⟩ := by
    unfold headerValid
    constructor
    · rintro ⟨a, b, c, d, e, g, i, j, k, l, m, n, o, _⟩
      exact ⟨a, b, c, d, e, g, i, j, k, l, m, n, o, h2⟩
    · rintro ⟨a, b, c, d, e, g, i, j, k, l, m, n, o, _⟩
      exact ⟨a, b, c, d, e, g, i, j, k, l, m, n, o, h1⟩
  unfold load_elf_and_init_memory
  by_cases h52 : f.size < 52
  · rw [if_pos h52, if_pos h52]
  · rw [if_neg h52, if_neg h52]
    by_cases hval : headerValid ⟨{ f.ehdr with e_entry := v1 }, f.phdrs, f.bytes, f.size⟩
    · rw [if_neg (not_not_intro hval), if_neg (not_not_intro (hiff.mp hval))]
      rw [segFold_ehdr_irrel env { f.ehdr with e_entry := v1 } { f.ehdr with e_entry := v2 }
        f.phdrs f.bytes f.size f.phdrs]
      rcases segFold env ⟨{ f.ehdr with e_entry := v2 }, f.phdrs, f.bytes, f.size⟩ f.phdrs
          (some ⟨[], m0, [], 0⟩) with _ | st
      · rfl
      · rfl
    · rw [if_pos (fun hv2 => hval (hiff.mpr hv2)), if_pos hval]

/-- A well-formed file whose entry point `0xC0000000` lies in kernel space:
its only program header is not PT_LOAD. -/
def elfKernelEntry : ElfFile :=
  ⟨⟨0x7F, 0x45, 0x4C, 0x46, 1, 1, 2, 3, 1, 0xC0000000, 52, 32, 1⟩,
    [⟨0, 0, 0, 0, 0, 0⟩], fun _ => 0, 84⟩

/-- Claim C9, counterexample: a file with `e_entry = 0xC0000000 ≥
KERNEL_VIRT_BASE` that loads successfully — the loader does not fail on it,
contradicting the claim. -/
theorem C9_counterexample :
    KERNEL_VIRT_BASE ≤ elfKernelEntry.ehdr.e_entry ∧
      (load_elf_and_init_memory loadEnvOk elfKernelEntry (fun _ => 0)).isSome = true := by
  refine ⟨by decide, by decide⟩

/-- Claim C9, witness: moving the entry point of the concrete file from
`0x8048000` to the kernel-space address `0xC0000000` leaves acceptance
unchanged. -/
theorem C9_witness :
    (load_elf_and_init_memory loadEnvOk
        ⟨{ elfKernelEntry.ehdr with e_entry := 0x8048000 }, elfKernelEntry.phdrs,
          elfKernelEntry.bytes, elfKernelEntry.size⟩ (fun _ => 0)).isSome =
      (load_elf_and_init_memory loadEnvOk
        ⟨{ elfKernelEntry.ehdr with e_entry := 0xC0000000 }, elfKernelEntry.phdrs,
          elfKernelEntry.bytes, elfKernelEntry.size⟩ (fun _ => 0)).isSome :=
  C9_entry_bound_not_enforced loadEnvOk elfKernelEntry (fun _ => 0) 0x8048000 0xC0000000
    (by decide) (by decide)

/-- Characterization of `copy_size_this_page` and `zero_padding_this_page`
(process.c:417-435) for a validated segment and a page at or after `p_vaddr`:
the copied slice is the overlap of the page with `[p_vaddr, p_vaddr+p_filesz)`
and copy+zero together reach the in-page `p_memsz` frontier. -/
theorem pageCalc_spec (ph : Elf32_Phdr) (page_v : Nat)
    (hnw : ph.p_vaddr + ph.p_memsz < two32)
    (hker : ph.p_vaddr + ph.p_memsz ≤ KERNEL_VIRT_BASE)
    (hfs : ph.p_filesz ≤ ph.p_memsz)
    (hge : ph.p_vaddr ≤ page_v)
    (hlt : page_v < ph.p_vaddr + ph.p_memsz) :
    copySize ph page_v =
        min (page_v + PAGE_SIZE) (ph.p_vaddr + ph.p_filesz) - page_v ∧
      copySize ph page_v + zeroPadding ph page_v =
        min (page_v + PAGE_SIZE) (ph.p_vaddr + ph.p_memsz) - page_v := by
  simp only [copySize, zeroPadding, pageEndFix, memEndFix, PAGE_SIZE, two32,
    KERNEL_VIRT_BASE, UINTPTR_MAX] at *
  constructor
  · split_ifs <;> omega
  · split_ifs <;> omega

/-- Characterization of `file_buffer_offset` (process.c:428) for a page at or
after `p_vaddr` that overlaps the file slice: the page's distance into the
segment plus `p_offset`. -/
theorem fileBufOffset_spec (ph : Elf32_Phdr) (page_v : Nat)
    (hnw : ph.p_vaddr + ph.p_memsz < two32)
    (hker : ph.p_vaddr + ph.p_memsz ≤ KERNEL_VIRT_BASE)
    (hfs : ph.p_filesz ≤ ph.p_memsz)
    (hge : ph.p_vaddr ≤ page_v)
    (hpvf : page_v < ph.p_vaddr + ph.p_filesz)
    (hoff : ph.p_offset + ph.p_filesz < two32) :
    fileBufOffset ph page_v = page_v - ph.p_vaddr + ph.p_offset := by
  have hcs := (pageCalc_spec ph page_v hnw hker hfs hge (by omega)).1
  unfold fileBufOffset
  rw [if_pos (by rw [hcs]; simp only [PAGE_SIZE]; omega)]
  rw [max_eq_left hge]
  exact Nat.mod_eq_of_lt (by simp only [two32] at hoff ⊢; omega)

/-- Byte `j` of the frame populated for page `page_v`, in terms of the file
bytes: the code `memcpy`s the file slice to offset 0 of the frame (not to the
slice's in-page offset) and zeroes up to the `p_memsz` frontier; when
`page_v ≥ p_vaddr` (always true for a page-aligned `p_vaddr`) the slice's
in-page offset is 0, so byte `j` holds file byte `p_offset + (page_v+j-p_vaddr)`
while `page_v + j` is below the file frontier, 0 up to the memory frontier, and
the frame's previous content beyond. -/
theorem framePageByte_spec (ph : Elf32_Phdr) (f : ElfFile) (old : Nat → Nat)
    (page_v j : Nat)
    (hnw : ph.p_vaddr + ph.p_memsz < two32)
    (hker : ph.p_vaddr + ph.p_memsz ≤ KERNEL_VIRT_BASE)
    (hfs : ph.p_filesz ≤ ph.p_memsz)
    (hge : ph.p_vaddr ≤ page_v)
    (hlt : page_v < ph.p_vaddr + ph.p_memsz)
    (hoff : ph.p_offset + ph.p_filesz < two32)
    (hj : j < PAGE_SIZE) :
    framePageByte ph f old page_v j =
      if page_v + j < ph.p_vaddr + ph.p_filesz then
        f.bytes (ph.p_offset + (page_v + j - ph.p_vaddr))
      else if page_v + j < ph.p_vaddr + ph.p_memsz then 0
      else old j := by
  obtain ⟨hcs, hcz⟩ := pageCalc_spec ph page_v hnw hker hfs hge hlt
  unfold framePageByte
  by_cases hb1 : page_v + j < ph.p_vaddr + ph.p_filesz
  · have hjc : j < copySize ph page_v := by
      rw [hcs]; simp only [PAGE_SIZE] at hj ⊢; omega
    have hfb := fileBufOffset_spec ph page_v hnw hker hfs hge (by omega) hoff
    have harg : page_v - ph.p_vaddr + ph.p_offset + j =
        ph.p_offset + (page_v + j - ph.p_vaddr) := by omega
    rw [if_pos hb1, if_pos hjc, hfb, harg]
  · have hjc : ¬ j < copySize ph page_v := by
      rw [hcs]; simp only [PAGE_SIZE] at hj ⊢; omega
    by_cases hb2 : page_v + j < ph.p_vaddr + ph.p_memsz
    · have hjz : j < copySize ph page_v + zeroPadding ph page_v := by
        rw [hcz]; simp only [PAGE_SIZE] at hj ⊢; omega
      rw [if_neg hb1, if_pos hb2, if_neg hjc, if_pos hjz]
    · have hjz : ¬ j < copySize ph page_v + zeroPadding ph page_v := by
        rw [hcz]; simp only [PAGE_SIZE] at hj ⊢; omega
      rw [if_neg hb1, if_neg hb2, if_neg hjc, if_neg hjz]

/-- Effect of the whole page loop on memory and on the mapped-page list, by
induction on the remaining page count: on success, memory outside the span is
untouched, every page of the span holds its `framePageByte` content, every
page of the span was mapped (with a nonzero frame, after a successful
temporary mapping), and previously recorded mappings survive. -/
theorem loadPagesGo_out (env : LoadEnv) (f : ElfFile) (ph : Elf32_Phdr) (start : Nat) :
    ∀ (n i : Nat) (mem : Nat → Nat) (maps : List (Nat × Nat))
      (mm : (Nat → Nat) × List (Nat × Nat)),
      loadPagesGo env f ph start i n mem maps = some mm →
      (∀ a, a < start + i * PAGE_SIZE ∨ start + (i + n) * PAGE_SIZE ≤ a → mm.1 a = mem a) ∧
        (∀ k, i ≤ k → k < i + n → ∀ j, j < PAGE_SIZE →
          mm.1 (start + k * PAGE_SIZE + j) =
            framePageByte ph f (env.uninit (start + k * PAGE_SIZE)) (start + k * PAGE_SIZE) j) ∧
        (∀ k, i ≤ k → k < i + n →
          (start + k * PAGE_SIZE, env.frames (start + k * PAGE_SIZE)) ∈ mm.2 ∧
            env.frames (start + k * PAGE_SIZE) ≠ 0 ∧
            env.temp_ok (start + k * PAGE_SIZE) = true ∧
            env.map_ok (start + k * PAGE_SIZE) = true) ∧
        (∀ x ∈ maps, x ∈ mm.2) := by
  intro n
  induction n with
  | zero =>
    intro i mem maps mm h
    simp only [loadPagesGo] at h
    obtain rfl : (mem, maps) = mm := Option.some.inj h
    exact ⟨fun a _ => rfl, fun k hk1 hk2 => absurd hk2 (by omega),
      fun k hk1 hk2 => absurd hk2 (by omega), fun x hx => hx⟩
  | succ n ih =>
    intro i mem maps mm h
    simp only [loadPagesGo] at h
    by_cases h1 : env.frames (start + i * PAGE_SIZE) = 0
    · rw [if_pos h1] at h
      exact Option.noConfusion h
    rw [if_neg h1] at h
    by_cases h2 : PAGE_SIZE < copySize ph (start + i * PAGE_SIZE) +
        zeroPadding ph (start + i * PAGE_SIZE)
    · rw [if_pos h2] at h
      exact Option.noConfusion h
    rw [if_neg h2] at h
    by_cases h3 : env.temp_ok (start + i * PAGE_SIZE) = false
    · rw [if_pos h3] at h
      exact Option.noConfusion h
    rw [if_neg h3] at h
    by_cases h4 : env.map_ok (start + i * PAGE_SIZE) = false
    · rw [if_pos h4] at h
      exact Option.noConfusion h
    rw [if_neg h4] at h
    obtain ⟨ha, hb, hc, hd⟩ := ih (i + 1) (overlayPage ph f env mem (start + i * PAGE_SIZE))
      (maps ++ [(start + i * PAGE_SIZE, env.frames (start + i * PAGE_SIZE))]) mm h
    simp only [PAGE_SIZE] at *
    refine ⟨?_, ?_, ?_, ?_⟩
    · intro a hcond
      have h5 := ha a (by omega)
      rw [h5]
      simp only [overlayPage, PAGE_SIZE]
      rw [if_neg (by omega)]
    · intro k hk1 hk2 j hj
      by_cases hk : k = i
      · rw [hk]
        have h5 := ha (start + i * 4096 + j) (by omega)
        rw [h5]
        simp only [overlayPage, PAGE_SIZE]
        rw [if_pos (by omega)]
        have harg : start + i * 4096 + j - (start + i * 4096) = j := by omega
        rw [harg]
      · exact hb k (by omega) (by omega) j hj
    · intro k hk1 hk2
      by_cases hk : k = i
      · rw [hk]
        refine ⟨hd _ (by simp), h1, ?_, ?_⟩
        · cases ht : env.temp_ok (start + i * 4096)
          · exact absurd ht h3
          · rfl
        · cases hm : env.map_ok (start + i * 4096)
          · exact absurd hm h4
          · rfl
      · exact hc k (by omega) (by omega)
    · intro x hx
      exact hd x (List.mem_append_left _ hx)

/-- What one successful `processSegment` step guarantees for its own
`PT_LOAD, memsz > 0, page-aligned` segment: the VMA is recorded, the file
slice is copied byte-for-byte, the BSS tail is zeroed, every page of the span
is mapped with a nonzero frame (after a successful temporary mapping), and the
span's basic geometry bounds hold. -/
theorem processSegment_establish (env : LoadEnv) (f : ElfFile) (st : LoadState)
    (ph : Elf32_Phdr) (st2 : LoadState) (hfit : phdrFits ph) (hsz : f.size < two32)
    (hty : ph.p_type = PT_LOAD) (hpos : 0 < ph.p_memsz)
    (hal : ph.p_vaddr % PAGE_SIZE = 0)
    (h : processSegment env f st ph = some st2) :
    (segStart ph, segEnd ph) ∈ st2.vmas ∧
      (∀ i, i < ph.p_filesz → st2.mem (ph.p_vaddr + i) = f.bytes (ph.p_offset + i)) ∧
      (∀ i, ph.p_filesz ≤ i → i < ph.p_memsz → st2.mem (ph.p_vaddr + i) = 0) ∧
      (∀ v, segStart ph ≤ v → v < segEnd ph → v % PAGE_SIZE = 0 →
        (v, env.frames v) ∈ st2.maps ∧ env.frames v ≠ 0 ∧
          env.temp_ok v = true ∧ env.map_ok v = true) ∧
      (segStart ph ≤ ph.p_vaddr ∧ ph.p_vaddr + ph.p_memsz ≤ segEnd ph ∧
        ph.p_filesz ≤ ph.p_memsz) := by
  unfold processSegment at h
  rw [if_neg (fun hor => hor.elim (fun hne => hne hty) (fun hz => by omega))] at h
  by_cases hbad : segBadP ph f.size
  · rw [if_pos hbad] at h
    exact Option.noConfusion h
  rw [if_neg hbad] at h
  obtain ⟨hnw, hker, hfs, hof, hofs, hss, hsa, hea, hme, hek, hlt⟩ :=
    segGeom_facts ph f.size hfit hbad hpos
  rw [if_neg (by omega)] at h
  by_cases hins : insert_vma_ok st.vmas (segStart ph) (segEnd ph)
  case neg =>
    rw [if_pos hins] at h
    exact Option.noConfusion h
  rw [if_neg (not_not_intro hins)] at h
  rcases hlp : loadPagesGo env f ph (segStart ph) 0 ((segEnd ph - segStart ph) / PAGE_SIZE)
      st.mem st.maps with _ | mm
  · rw [hlp] at h
    exact Option.noConfusion h
  rw [hlp, Option.some_bind] at h
  obtain rfl : _ = st2 := Option.some.inj h
  obtain ⟨ha, hb, hc, hd⟩ := loadPagesGo_out env f ph (segStart ph)
    ((segEnd ph - segStart ph) / PAGE_SIZE) 0 st.mem st.maps mm hlp
  have hoff2 : ph.p_offset + ph.p_filesz < two32 := by
    simp only [two32] at hsz ⊢
    omega
  have hsv : segStart ph = ph.p_vaddr := by
    simp only [segStart, PAGE_ALIGN_DOWN, PAGE_SIZE] at hal ⊢
    omega
  simp only [PAGE_SIZE] at ha hb hc hal hsa hea hss hme hlt ⊢
  refine ⟨?_, ?_, ?_, ?_, hss, hme, hfs⟩
  · show (segStart ph, segEnd ph) ∈ st.vmas ++ [(segStart ph, segEnd ph)]
    simp
  · intro i hi
    show mm.1 (ph.p_vaddr + i) = f.bytes (ph.p_offset + i)
    have hmm := hb (i / 4096) (Nat.zero_le _) (by omega) (i % 4096) (by omega)
    rw [framePageByte_spec ph f (env.uninit (segStart ph + i / 4096 * 4096))
      (segStart ph + i / 4096 * 4096) (i % 4096) hnw hker hfs (by omega) (by omega) hoff2
      (by simp only [PAGE_SIZE]; omega)] at hmm
    have haddr : segStart ph + i / 4096 * 4096 + i % 4096 = ph.p_vaddr + i := by omega
    rw [haddr] at hmm
    rw [if_pos (by omega)] at hmm
    have harg : ph.p_vaddr + i - ph.p_vaddr = i := by omega
    rw [harg] at hmm
    exact hmm
  · intro i hfi hi
    show mm.1 (ph.p_vaddr + i) = 0
    have hmm := hb (i / 4096) (Nat.zero_le _) (by omega) (i % 4096) (by omega)
    rw [framePageByte_spec ph f (env.uninit (segStart ph + i / 4096 * 4096))
      (segStart ph + i / 4096 * 4096) (i % 4096) hnw hker hfs (by omega) (by omega) hoff2
      (by simp only [PAGE_SIZE]; omega)] at hmm
    have haddr : segStart ph + i / 4096 * 4096 + i % 4096 = ph.p_vaddr + i := by omega
    rw [haddr] at hmm
    rw [if_neg (by omega), if_pos (by omega)] at hmm
    exact hmm
  · intro v h1v h2v h3v
    show (v, env.frames v) ∈ mm.2 ∧ env.frames v ≠ 0 ∧
      env.temp_ok v = true ∧ env.map_ok v = true
    have hkb : (v - segStart ph) / 4096 < 0 + (segEnd ph - segStart ph) / 4096 := by omega
    have h6 := hc ((v - segStart ph) / 4096) (Nat.zero_le _) hkb
    have haddr : segStart ph + (v - segStart ph) / 4096 * 4096 = v := by omega
    rw [haddr] at h6
    exact h6

/-- A `processSegment` step for any other segment leaves the bytes of an
already inserted VMA span untouched (the spans are disjoint, by `insert_vma`'s
overlap check) and only appends to the VMA and mapped-page lists. -/
theorem processSegment_preserve (env : LoadEnv) (f : ElfFile) (st : LoadState)
    (ph : Elf32_Phdr) (st2 : LoadState) (hfit : phdrFits ph)
    (h : processSegment env f st ph = some st2) (s e : Nat) (hse : (s, e) ∈ st.vmas) :
    (∀ a, s ≤ a → a < e → st2.mem a = st.mem a) ∧
      (∀ x ∈ st.vmas, x ∈ st2.vmas) ∧ (∀ x ∈ st.maps, x ∈ st2.maps) := by
  unfold processSegment at h
  by_cases h0 : ph.p_type ≠ PT_LOAD ∨ ph.p_memsz = 0
  · rw [if_pos h0] at h
    obtain rfl : st = st2 := Option.some.inj h
    exact ⟨fun a _ _ => rfl, fun x hx => hx, fun x hx => hx⟩
  rw [if_neg h0] at h
  push_neg at h0
  by_cases hbad : segBadP ph f.size
  · rw [if_pos hbad] at h
    exact Option.noConfusion h
  rw [if_neg hbad] at h
  obtain ⟨hnw, hker, hfs, hof, hofs, hss, hsa, hea, hme, hek, hlt⟩ :=
    segGeom_facts ph f.size hfit hbad (Nat.pos_of_ne_zero h0.2)
  by_cases hemp : segEnd ph ≤ segStart ph
  · rw [if_pos hemp] at h
    obtain rfl : st = st2 := Option.some.inj h
    exact ⟨fun a _ _ => rfl, fun x hx => hx, fun x hx => hx⟩
  rw [if_neg hemp] at h
  by_cases hins : insert_vma_ok st.vmas (segStart ph) (segEnd ph)
  case neg =>
    rw [if_pos hins] at h
    exact Option.noConfusion h
  rw [if_neg (not_not_intro hins)] at h
  rcases hlp : loadPagesGo env f ph (segStart ph) 0 ((segEnd ph - segStart ph) / PAGE_SIZE)
      st.mem st.maps with _ | mm
  · rw [hlp] at h
    exact Option.noConfusion h
  rw [hlp, Option.some_bind] at h
  obtain rfl : _ = st2 := Option.some.inj h
  obtain ⟨ha, _, _, hd⟩ := loadPagesGo_out env f ph (segStart ph)
    ((segEnd ph - segStart ph) / PAGE_SIZE) 0 st.mem st.maps mm hlp
  have hdisj := hins.2 (s, e) hse
  simp only [PAGE_SIZE] at ha hsa hea
  refine ⟨?_, ?_, ?_⟩
  · intro a h1a h2a
    show mm.1 a = st.mem a
    exact ha a (by omega)
  · intro x hx
    show x ∈ st.vmas ++ [(segStart ph, segEnd ph)]
    exact List.mem_append_left _ hx
  · intro x hx
    exact hd x hx

/-- Preservation through the rest of the segment loop: once a VMA span is in
the state, later segments never change its bytes and only extend the VMA and
mapped-page lists. -/
theorem segFold_preserve (env : LoadEnv) (f : ElfFile) :
    ∀ (l : List Elf32_Phdr), (∀ q ∈ l, phdrFits q) →
      ∀ (st st2 : LoadState), segFold env f l (some st) = some st2 →
      ∀ s e, (s, e) ∈ st.vmas →
        (∀ a, s ≤ a → a < e → st2.mem a = st.mem a) ∧
          (∀ x ∈ st.vmas, x ∈ st2.vmas) ∧ (∀ x ∈ st.maps, x ∈ st2.maps) := by
  intro l
  induction l with
  | nil =>
    intro _ st st2 h s e hse
    obtain rfl : st = st2 := Option.some.inj h
    exact ⟨fun a _ _ => rfl, fun x hx => hx, fun x hx => hx⟩
  | cons q t ih =>
    intro hfitl st st2 h s e hse
    obtain ⟨st1, hq, ht⟩ := segFold_some_split env f q t st st2 h
    obtain ⟨hm1, hv1, hp1⟩ := processSegment_preserve env f st q st1
      (hfitl q (List.mem_cons_self q t)) hq s e hse
    obtain ⟨hm2, hv2, hp2⟩ := ih (fun x hx => hfitl x (List.mem_cons_of_mem q hx))
      st1 st2 ht s e (hv1 (s, e) hse)
    exact ⟨fun a h1 h2 => (hm2 a h1 h2).trans (hm1 a h1 h2),
      fun x hx => hv2 x (hv1 x hx), fun x hx => hp2 x (hp1 x hx)⟩

/-- The guarantees of `processSegment_establish` survive to the end of the
segment loop: establish at the segment's own step, then preserve through the
remaining segments. -/
theorem segFold_establish (env : LoadEnv) (f : ElfFile) (hsz : f.size < two32)
    (ph : Elf32_Phdr) (hty : ph.p_type = PT_LOAD) (hpos : 0 < ph.p_memsz)
    (hal : ph.p_vaddr % PAGE_SIZE = 0) :
    ∀ (l : List Elf32_Phdr), (∀ q ∈ l, phdrFits q) → ph ∈ l →
      ∀ (st st2 : LoadState), segFold env f l (some st) = some st2 →
      (segStart ph, segEnd ph) ∈ st2.vmas ∧
        (∀ i, i < ph.p_filesz → st2.mem (ph.p_vaddr + i) = f.bytes (ph.p_offset + i)) ∧
        (∀ i, ph.p_filesz ≤ i → i < ph.p_memsz → st2.mem (ph.p_vaddr + i) = 0) ∧
        (∀ v, segStart ph ≤ v → v < segEnd ph → v % PAGE_SIZE = 0 →
          (v, env.frames v) ∈ st2.maps ∧ env.frames v ≠ 0 ∧
            env.temp_ok v = true ∧ env.map_ok v = true) := by
  intro l
  induction l with
  | nil =>
    intro _ hmem
    exact absurd hmem (List.not_mem_nil ph)
  | cons q t ih =>
    intro hfitl hmem st st2 h
    obtain ⟨st1, hq, ht⟩ := segFold_some_split env f q t st st2 h
    rcases List.mem_cons.mp hmem with hph | hph
    · subst hph
      obtain ⟨hvma, hbyte, hzero, hmaps, hss, hme, hfs⟩ :=
        processSegment_establish env f st ph st1
          (hfitl ph (List.mem_cons_self ph t)) hsz hty hpos hal hq
      obtain ⟨hpm, hpv, hpp⟩ := segFold_preserve env f t
        (fun x hx => hfitl x (List.mem_cons_of_mem ph hx)) st1 st2 ht
        (segStart ph) (segEnd ph) hvma
      refine ⟨hpv _ hvma, ?_, ?_, ?_⟩
      · intro i hi
        rw [hpm (ph.p_vaddr + i) (by omega) (by omega)]
        exact hbyte i hi
      · intro i h1 h2
        rw [hpm (ph.p_vaddr + i) (by omega) (by omega)]
        exact hzero i h1 h2
      · intro v h1 h2 h3
        obtain ⟨m1, m2, m3, m4⟩ := hmaps v h1 h2 h3
        exact ⟨hpp _ m1, m2, m3, m4⟩
    · exact ih (fun x hx => hfitl x (List.mem_cons_of_mem q hx)) hph st1 st2 ht

/-- Claim C2 (amended: `p_vaddr` page-aligned, and the C field widths as
hypotheses): for every PT_LOAD segment with `memsz > 0` and page-aligned
`p_vaddr` of a file the loader accepts, after `load_elf_and_init_memory`
succeeds the segment's VMA span is recorded, every virtual byte `vaddr+i` for
`i < filesz` equals byte `p_offset+i` of the file buffer, every virtual byte
in `[vaddr+filesz, vaddr+memsz)` is zero, and each page of the span
`[PAGE_ALIGN_DOWN(vaddr), PAGE_ALIGN_UP(vaddr+memsz))` was backed by a freshly
allocated (nonzero) frame, populated through a successful temporary mapping,
and mapped into the process page directory.  Without the alignment hypothesis
the byte claim is false: `copy_elf_segment_data` copies the file slice to
offset 0 of the frame instead of the slice's in-page offset
(process.c:261-262). -/
theorem C2_segment_loaded (env : LoadEnv) (f : ElfFile) (m0 : Nat → Nat) (out : LoadOut)
    (ph : Elf32_Phdr) (hsz : f.size < two32) (hfitl : ∀ q ∈ f.phdrs, phdrFits q)
    (hmem : ph ∈ f.phdrs) (hty : ph.p_type = PT_LOAD) (hpos : 0 < ph.p_memsz)
    (hal : ph.p_vaddr % PAGE_SIZE = 0)
    (hload : load_elf_and_init_memory env f m0 = some out) :
    (segStart ph, segEnd ph) ∈ out.vmas ∧
      (∀ i, i < ph.p_filesz → out.mem (ph.p_vaddr + i) = f.bytes (ph.p_offset + i)) ∧
      (∀ i, ph.p_filesz ≤ i → i < ph.p_memsz → out.mem (ph.p_vaddr + i) = 0) ∧
      (∀ v, segStart ph ≤ v → v < segEnd ph → v % PAGE_SIZE = 0 →
        (v, env.frames v) ∈ out.maps ∧ env.frames v ≠ 0 ∧
          env.temp_ok v = true ∧ env.map_ok v = true) := by
  unfold load_elf_and_init_memory at hload
  by_cases h1 : f.size < 52
  · rw [if_pos h1] at hload
    exact Option.noConfusion hload
  rw [if_neg h1] at hload
  by_cases h2 : headerValid f
  case neg =>
    rw [if_pos h2] at hload
    exact Option.noConfusion hload
  rw [if_neg (not_not_intro h2)] at hload
  rcases hsf : segFold env f f.phdrs (some ⟨[], m0, [], 0⟩) with _ | st
  · rw [hsf] at hload
    exact Option.noConfusion hload
  rw [hsf, Option.some_bind] at hload
  obtain rfl : _ = out := Option.some.inj hload
  exact segFold_establish env f hsz ph hty hpos hal f.phdrs hfitl hmem ⟨[], m0, [], 0⟩ st hsf

/-- Virtual-memory content reported by a load attempt (0 when the load
failed). -/
def loadMemAt (r : Option LoadOut) (a : Nat) : Nat :=
  match r with
  | some o => o.mem a
  | none => 0

/-- A well-formed file whose single PT_LOAD segment has a page-UNaligned
`p_vaddr = 0x1800`: 16 file bytes at offset 0x100 (the first being 7) are
meant for virtual `[0x1800, 0x1810)`. -/
def elfUnaligned : ElfFile :=
  ⟨⟨0x7F, 0x45, 0x4C, 0x46, 1, 1, 2, 3, 1, 0x1800, 52, 32, 1⟩,
    [⟨1, 0x100, 0x1800, 0x10, 0x10, 5⟩], fun i => if i = 0x100 then 7 else 0, 0x1000⟩

/-- A well-formed file as in the spec's worked example: one PT_LOAD segment at
page-aligned `p_vaddr = 0x8048000`, 16 file bytes at offset 0x100 (the first
being 7), `memsz = 0x2000`. -/
def elfAligned : ElfFile :=
  ⟨⟨0x7F, 0x45, 0x4C, 0x46, 1, 1, 2, 3, 1, 0x8048000, 52, 32, 1⟩,
    [⟨1, 0x100, 0x8048000, 0x10, 0x2000, 5⟩], fun i => if i = 0x100 then 7 else 0, 0x1000⟩

/-- Claim C2, counterexample: the loader accepts `elfUnaligned`, whose PT_LOAD
segment wants file byte 7 (offset 0x100) at virtual `0x1800 = vaddr + 0`, but
after the load virtual `0x1800` holds 0 — the byte landed at the page start
`0x1000` instead, because `copy_elf_segment_data` copies to offset 0 of the
frame.  This refutes the claim as stated for unaligned `p_vaddr`. -/
theorem C2_counterexample :
    (load_elf_and_init_memory loadEnvOk elfUnaligned (fun _ => 0)).isSome = true ∧
      elfUnaligned.phdrs = [⟨PT_LOAD, 0x100, 0x1800, 0x10, 0x10, 5⟩] ∧
      elfUnaligned.bytes (0x100 + 0) = 7 ∧
      loadMemAt (load_elf_and_init_memory loadEnvOk elfUnaligned (fun _ => 0)) (0x1800 + 0) = 0 ∧
      loadMemAt (load_elf_and_init_memory loadEnvOk elfUnaligned (fun _ => 0)) 0x1000 = 7 := by
  refine ⟨by decide, by decide, by decide, by decide, by decide⟩

/-- Claim C2, witness: on the aligned file the loader succeeds, virtual
`0x8048000` holds file byte 7 and virtual `0x8048100` (inside the BSS tail) is
zero, by the amended theorem at concrete inputs. -/
theorem C2_witness :
    (load_elf_and_init_memory loadEnvOk elfAligned (fun _ => 0)).isSome = true ∧
      loadMemAt (load_elf_and_init_memory loadEnvOk elfAligned (fun _ => 0)) 0x8048000 = 7 ∧
      loadMemAt (load_elf_and_init_memory loadEnvOk elfAligned (fun _ => 0)) 0x8048100 = 0 := by
  rcases hload : load_elf_and_init_memory loadEnvOk elfAligned (fun _ => 0) with _ | out
  · have hs : (load_elf_and_init_memory loadEnvOk elfAligned (fun _ => 0)).isSome = true := by
      decide
    rw [hload] at hs
    exact Bool.noConfusion hs
  · obtain ⟨-, hbyte, hzero, -⟩ := C2_segment_loaded loadEnvOk elfAligned (fun _ => 0) out
      ⟨1, 0x100, 0x8048000, 0x10, 0x2000, 5⟩ (by decide) (by decide) (by decide) (by decide)
      (by decide) (by decide) hload
    refine ⟨rfl, ?_, ?_⟩
    · show out.mem 0x8048000 = 7
      have hb0 := hbyte 0 (by norm_num)
      calc out.mem 0x8048000 = out.mem (0x8048000 + 0) := by norm_num
        _ = elfAligned.bytes (0x100 + 0) := hb0
        _ = 7 := by decide
    · show out.mem 0x8048100 = 0
      have hz := hzero 0x100 (by norm_num) (by norm_num)
      calc out.mem 0x8048100 = out.mem (0x8048000 + 0x100) := by norm_num
        _ = 0 := hz

end OsCore
